import Mathlib

/-!
# cron_job: worker daemon and controller utility

A shallow embedding of the process-lifecycle core of the repository:

* `beta/src/modules/init.go`   : the background worker (`savePID`, `removePIDFile`,
  `runSync`, `logMessage`, the scheduling loop of `main`);
* `stable/src/modules/kill.go` : the interactive controller (`main`).

Operating-system calls are total functions of an explicit environment record that
fixes the answer of every call; the programs are functions from that environment
(and standard input) to the sequence of effects they perform and to the state of
the files they own.  Text (file contents, standard input, log lines) is a list of
characters.  The fragments of the Go standard library the programs rely on
(`time` formatting and parsing, `encoding/json` for `PIDInfo`, `fmt.Scanln`,
`filepath.Join`) are embedded as far as the programs exercise them; the text of the
errors of `json.Unmarshal` is left out, their kind is kept.
-/

namespace CronJob

/-! ## Go `time` -/

/-- The location attached to a `time.Time`. -/
inductive Loc where
  | utc
  | localZone
  | fixed (offset : Int)
  deriving DecidableEq, Repr

/-- A `time.Time`: wall-clock instant (Unix seconds and nanoseconds), the optional
monotonic clock reading carried by values of `time.Now`, and the location. -/
structure Time where
  sec : Int
  nsec : Nat
  mono : Option Int
  loc : Loc
  deriving DecidableEq, Repr

/-- The process-wide `time.Local`: the zone offset (seconds east of UTC) in effect
at a given Unix time. -/
abbrev Zone := Int → Int

/-- The zone offset in effect for `t` (second result of `Time.Zone`). -/
def Time.offset (zone : Zone) (t : Time) : Int :=
  match t.loc with
  | .utc => 0
  | .localZone => zone t.sec
  | .fixed o => o

/-- The zero `time.Time`: January 1, year 1, 00:00:00 UTC. -/
def Time.zero : Time := { sec := -62135596800, nsec := 0, mono := none, loc := .utc }

/-- `Time.Equal`: the same instant, whatever the location and monotonic reading. -/
def Time.Equal (t u : Time) : Prop := t.sec = u.sec ∧ t.nsec = u.nsec

def isLeap (year : Int) : Bool :=
  year % 4 == 0 && (year % 100 != 0 || year % 400 == 0)

/-- The table `daysBefore`: days in a non-leap year before month `m + 1`. -/
def daysBefore (m : Int) : Int :=
  if m ≤ 0 then 0 else if m = 1 then 31 else if m = 2 then 59 else if m = 3 then 90
  else if m = 4 then 120 else if m = 5 then 151 else if m = 6 then 181 else if m = 7 then 212
  else if m = 8 then 243 else if m = 9 then 273 else if m = 10 then 304
  else if m = 11 then 334 else 365

def daysIn (month year : Int) : Int :=
  if month = 2 ∧ isLeap year then 29 else daysBefore month - daysBefore (month - 1)

/-- Year and zero-based day of the year of a day count since 0001-01-01
(the cycle arithmetic of `absDate`: 400-, 100-, 4- and 1-year cycles). -/
def absYear (days : Int) : Int × Int :=
  let n400 := days / 146097
  let d := days - 146097 * n400
  let n := d / 36524
  let n100 := n - n / 4
  let d := d - 36524 * n100
  let n4 := d / 1461
  let d := d - 1461 * n4
  let n := d / 365
  let n1 := n - n / 4
  let d := d - 365 * n1
  (400 * n400 + 100 * n100 + 4 * n4 + n1 + 1, d)

/-- Month and day of the month from the day of the year (second half of `absDate`). -/
def monthDay (leap : Bool) (yday : Int) : Int × Int :=
  let day := if leap ∧ yday > 31 + 29 - 1 then yday - 1 else yday
  if leap ∧ yday = 31 + 29 - 1 then (2, 29)
  else
    let month := day / 31
    let e := daysBefore (month + 1)
    if day ≥ e then (month + 2, day - e + 1)
    else (month + 1, day - daysBefore month + 1)

/-- Seconds per day. -/
def secondsPerDay : Int := 86400

/-- Days from 0001-01-01 to the Unix epoch 1970-01-01. -/
def unixEpochDays : Int := 719162

/-- `absDate`: year, month, day of the wall-clock second count `abs`
(seconds since the Unix epoch, zone offset already added). -/
def absDate (abs : Int) : Int × Int × Int :=
  let yd := absYear (abs / secondsPerDay + unixEpochDays)
  let md := monthDay (isLeap yd.1) yd.2
  (yd.1, md.1, md.2)

/-- `absClock`: hour, minute, second within the day. -/
def absClock (abs : Int) : Int × Int × Int :=
  let s := abs % secondsPerDay
  (s / 3600, s % 3600 / 60, s % 60)

/-- `daysSinceEpoch`: days from 0001-01-01 to January 1 of `year`. -/
def daysSinceEpoch (year : Int) : Int :=
  let y := year - 1
  let n := y / 400
  let y := y - 400 * n
  let d := 146097 * n
  let n := y / 100
  let y := y - 100 * n
  let d := d + 36524 * n
  let n := y / 4
  let y := y - 4 * n
  let d := d + 1461 * n
  d + 365 * y

/-- Zero-based day of the year of a month and day (`Date`: days before this month,
the leap day, days before today). -/
def ydayOf (leap : Bool) (month day : Int) : Int :=
  daysBefore (month - 1) + (if leap ∧ month ≥ 3 then 1 else 0) + (day - 1)

/-- `time.Date(year, month, day, hour, min, sec, nsec, time.UTC)` for fields already
in their normal ranges, which is how `parseRFC3339` calls it. -/
def Date (year month day hour min sec : Int) (nsec : Nat) : Time :=
  let d := daysSinceEpoch year + ydayOf (isLeap year) month day
  let abs := d * secondsPerDay + hour * 3600 + min * 60 + sec
  { sec := abs - unixEpochDays * secondsPerDay, nsec := nsec, mono := none, loc := .utc }

/-- The decimal digit `'0' + u`. -/
def utod (u : Nat) : Char := Nat.digitChar u

def natDigitsAux : Nat → Nat → List Char → List Char
  | 0, _, acc => acc
  | fuel + 1, n, acc =>
    if n < 10 then utod n :: acc else natDigitsAux fuel (n / 10) (utod (n % 10) :: acc)

/-- Decimal digits of a natural number, most significant first. -/
def natDigits (n : Nat) : List Char := natDigitsAux (n + 1) n []

/-- `appendInt(b, x, width)`: sign, zero padding up to `width` digits, digits. -/
def appendInt (x : Int) (width : Nat) : List Char :=
  let ds := natDigits x.natAbs
  (if x < 0 then ['-'] else []) ++ List.replicate (width - ds.length) '0' ++ ds

/-- `strconv.Itoa` / `strconv.AppendInt(_, x, 10)`. -/
def itoa (x : Int) : List Char := appendInt x 0

/-- `t.Format("2006-01-02 15:04:05")`. -/
def formatDateTime (zone : Zone) (t : Time) : List Char :=
  let abs := t.sec + t.offset zone
  let ymd := absDate abs
  let hms := absClock abs
  appendInt ymd.1 4 ++ ['-'] ++ appendInt ymd.2.1 2 ++ ['-'] ++ appendInt ymd.2.2 2 ++ [' '] ++
    appendInt hms.1 2 ++ [':'] ++ appendInt hms.2.1 2 ++ [':'] ++ appendInt hms.2.2 2

/-- `t.Format("15:04:05")`. -/
def formatClock (zone : Zone) (t : Time) : List Char :=
  let hms := absClock (t.sec + t.offset zone)
  appendInt hms.1 2 ++ [':'] ++ appendInt hms.2.1 2 ++ [':'] ++ appendInt hms.2.2 2

/-- Drop trailing `'0'` characters (the trimming loop of `appendNano`). -/
def trimZeros (ds : List Char) : List Char :=
  (ds.reverse.dropWhile (fun c => c == '0')).reverse

/-- `appendNano` for the layout fraction `.999999999`: nothing when the nanoseconds
are zero, otherwise a period and nine digits with trailing zeros removed. -/
def appendNano (nsec : Nat) : List Char :=
  if nsec = 0 then [] else '.' :: trimZeros (appendInt nsec 9)

/-- Integer division of Go (truncated towards zero) by a positive divisor. -/
def quoT (a b : Int) : Int := if a < 0 then -((-a) / b) else a / b

/-- The zone suffix of `appendFormatRFC3339`: `Z`, or sign, hours, colon, minutes. -/
def appendZone (offset : Int) : List Char :=
  if offset = 0 then ['Z']
  else
    let zone := quoT offset 60
    (if zone < 0 then ['-'] else ['+']) ++
      appendInt (zone.natAbs / 60) 2 ++ [':'] ++ appendInt (zone.natAbs % 60) 2

/-- `t.appendFormatRFC3339(b, true)`: the layout `2006-01-02T15:04:05.999999999Z07:00`. -/
def appendFormatRFC3339 (zone : Zone) (t : Time) : List Char :=
  let offset := t.offset zone
  let abs := t.sec + offset
  let ymd := absDate abs
  let hms := absClock abs
  appendInt ymd.1 4 ++ ['-'] ++ appendInt ymd.2.1 2 ++ ['-'] ++ appendInt ymd.2.2 2 ++ ['T'] ++
    appendInt hms.1 2 ++ [':'] ++ appendInt hms.2.1 2 ++ [':'] ++ appendInt hms.2.2 2 ++
    appendNano t.nsec ++ appendZone offset

/-- `Time.MarshalJSON`: the quoted strict RFC 3339 form; an error when the year does
not have exactly four digits or the zone hour is outside `[0,23]`. -/
def Time.MarshalJSON (zone : Zone) (t : Time) : Except String (List Char) :=
  let offset := t.offset zone
  let year := (absDate (t.sec + offset)).1
  if year < 0 ∨ 9999 < year then
    .error "Time.MarshalJSON: year outside of range [0,9999]"
  else if offset ≠ 0 ∧ 24 ≤ (quoT offset 60).natAbs / 60 then
    .error "Time.MarshalJSON: timezone hour outside of range [0,23]"
  else .ok (['"'] ++ appendFormatRFC3339 zone t ++ ['"'])

/-- `Time.Add(d)` for a duration `d` in nanoseconds. -/
def Time.Add (t : Time) (d : Int) : Time :=
  let n := (t.nsec : Int) + d
  { t with sec := t.sec + n / 1000000000, nsec := (n % 1000000000).toNat,
           mono := t.mono.map (fun m => m + d) }

/-- The largest `time.Duration` (nanoseconds in an int64). -/
def maxDuration : Int := 9223372036854775807

/-- The smallest `time.Duration`. -/
def minDuration : Int := -9223372036854775808

/-- `now.Sub(t)` on wall-clock readings, saturating at the ends of `Duration`. -/
def Time.Sub (now t : Time) : Int :=
  let d := (now.sec - t.sec) * 1000000000 + ((now.nsec : Int) - (t.nsec : Int))
  if maxDuration < d then maxDuration else if d < minDuration then minDuration else d

/-- `d.Round(time.Second)`: to the nearest second, halves away from zero, saturating. -/
def roundSecond (d : Int) : Int :=
  let m : Int := 1000000000
  if d < 0 then
    let r := (-d) % m
    if r + r < m then d + r
    else if minDuration ≤ d - m + r then d - m + r else minDuration
  else
    let r := d % m
    if r + r < m then d - r
    else if d + m - r ≤ maxDuration then d + m - r else maxDuration

def isDigit (c : Char) : Bool := decide ('0' ≤ c) && decide (c ≤ '9')

/-- Value of a string of decimal digits. -/
def digitsVal (s : List Char) : Nat := s.foldl (fun x c => x * 10 + (c.toNat - 48)) 0

/-- `parseUint` of `parseRFC3339`: an unsigned decimal within `[min, max]`. -/
def parseUint (s : List Char) (min max : Int) : Option Int :=
  if s.all isDigit then
    if (digitsVal s : Int) < min ∨ max < (digitsVal s : Int) then none else some (digitsVal s)
  else none

/-- `parseNanoseconds` on the digits after the period: at most nine digits count,
scaled to nanoseconds. -/
def parseNanoseconds (frac : List Char) : Nat :=
  digitsVal (frac.take 9) * 10 ^ (9 - (frac.take 9).length)

/-- The zone part of `parseRFC3339`: applies `Z` or a `±hh:mm` offset to the
instant `t` read as UTC. -/
def parseZone (localZone : Zone) (t : Time) (s : List Char) : Option Time :=
  if s = ['Z'] then some t
  else if s.length ≠ 6 then none
  else
    match parseUint ((s.drop 1).take 2) 0 23, parseUint ((s.drop 4).take 2) 0 59 with
    | some hr, some mm =>
      if (s.get? 0 = some '-' ∨ s.get? 0 = some '+') ∧ s.get? 3 = some ':' then
        let zoneOffset := (hr * 60 + mm) * 60 * (if s.get? 0 = some '-' then -1 else 1)
        let sec := t.sec - zoneOffset
        some { t with sec := sec,
                      loc := if localZone sec = zoneOffset then .localZone else .fixed zoneOffset }
      else none
    | _, _ => none

/-- `parseRFC3339(s, Local)`: the strict reading of `2006-01-02T15:04:05[.fraction]Z07:00`,
the fast path of `parseStrictRFC3339`. -/
def parseRFC3339 (localZone : Zone) (s : List Char) : Option Time :=
  if s.length < 19 then none
  else
    match parseUint (s.take 4) 0 9999, parseUint ((s.drop 5).take 2) 1 12 with
    | some year, some month =>
      match parseUint ((s.drop 8).take 2) 1 (daysIn month year),
            parseUint ((s.drop 11).take 2) 0 23,
            parseUint ((s.drop 14).take 2) 0 59,
            parseUint ((s.drop 17).take 2) 0 59 with
      | some day, some hour, some min, some sec =>
        if s.get? 4 = some '-' ∧ s.get? 7 = some '-' ∧ s.get? 10 = some 'T' ∧
            s.get? 13 = some ':' ∧ s.get? 16 = some ':' then
          let r := s.drop 19
          if r.get? 0 = some '.' ∧ (r.get? 1).any isDigit then
            parseZone localZone
              (Date year month day hour min sec (parseNanoseconds ((r.drop 1).takeWhile isDigit)))
              ((r.drop 1).dropWhile isDigit)
          else parseZone localZone (Date year month day hour min sec 0) r
        else none
      | _, _, _, _ => none
    | _, _ => none

/-- `getnum`: the number made of one or two leading digits, exactly two when `fixed`,
and the rest of the input. -/
def getnum (s : List Char) (fixed : Bool) : Option (Int × List Char) :=
  match s with
  | [] => none
  | a :: r =>
    if isDigit a then
      match r with
      | [] => if fixed then none else some ((digitsVal [a] : Nat), [])
      | b :: r2 =>
        if isDigit b then some ((digitsVal [a, b] : Nat), r2)
        else if fixed then none else some ((digitsVal [a] : Nat), b :: r2)
    else none

/-- `skip(value, prefix)` for a layout prefix of one character that is not a space. -/
def skipChar (c : Char) (s : List Char) : Option (List Char) :=
  match s with
  | [] => none
  | d :: r => if d = c then some r else none

/-- The seconds fraction `Parse` reads after the seconds when the layout has none: a
period or a comma followed by at least one digit.  Gives the nanoseconds and the rest
of the input. -/
def parseFraction (s : List Char) : Nat × List Char :=
  match s with
  | c :: d :: r =>
    if (c = '.' ∨ c = ',') ∧ isDigit d = true then
      (parseNanoseconds ((d :: r).takeWhile isDigit), (d :: r).dropWhile isDigit)
    else (0, s)
  | _ => (0, s)

/-- The layout element `Z07:00` of `Parse`: `Z`, or a sign, two digits, a colon and two
digits, the hours at most 24 and the minutes at most 60.  Gives the offset in seconds
east of UTC (`none` for `Z`) and the rest of the input. -/
def parseZoneElem (s : List Char) : Option (Option Int × List Char) :=
  match s with
  | 'Z' :: r => some (none, r)
  | _ =>
    if s.length < 6 then none
    else if s.get? 3 ≠ some ':' then none
    else
      match getnum ((s.drop 1).take 2) true, getnum ((s.drop 4).take 2) true with
      | some (hr, _), some (mm, _) =>
        if hr > 24 ∨ mm > 60 then none
        else if s.get? 0 = some '+' then some (some ((hr * 60 + mm) * 60), s.drop 6)
        else if s.get? 0 = some '-' then some (some (-((hr * 60 + mm) * 60)), s.drop 6)
        else none
      | _, _ => none

/-- `time.Parse(time.RFC3339, s)`: the layout `2006-01-02T15:04:05Z07:00` read element
by element.  Year of four digits, month and day of two, hour of one or two, minute and
second of two, an optional fraction, the zone, and nothing after it; the day is checked
against the month once everything is read. -/
def parseLayoutRFC3339 (localZone : Zone) (s : List Char) : Option Time :=
  if s.length < 4 ∨ (s.take 4).all isDigit = false then none
  else
    let year : Int := (digitsVal (s.take 4) : Nat)
    match (skipChar '-' (s.drop 4)).bind (fun v => getnum v true) with
    | none => none
    | some (month, v1) =>
      if month ≤ 0 ∨ 12 < month then none
      else
        match (skipChar '-' v1).bind (fun v => getnum v true) with
        | none => none
        | some (day, v2) =>
          match (skipChar 'T' v2).bind (fun v => getnum v false) with
          | none => none
          | some (hour, v3) =>
            if 24 ≤ hour then none
            else
              match (skipChar ':' v3).bind (fun v => getnum v true) with
              | none => none
              | some (min, v4) =>
                if 60 ≤ min then none
                else
                  match (skipChar ':' v4).bind (fun v => getnum v true) with
                  | none => none
                  | some (sec, v5) =>
                    if 60 ≤ sec then none
                    else
                      match parseZoneElem (parseFraction v5).2 with
                      | none => none
                      | some (z, rest) =>
                        if rest ≠ [] then none
                        else if day < 1 ∨ daysIn month year < day then none
                        else
                          let t := Date year month day hour min sec (parseFraction v5).1
                          match z with
                          | none => some t
                          | some zoneOffset =>
                            some { t with
                              sec := t.sec - zoneOffset,
                              loc := if localZone (t.sec - zoneOffset) = zoneOffset
                                then .localZone else .fixed zoneOffset }

/-- `parseStrictRFC3339`, which `Time.UnmarshalJSON` applies to the text between the
quotes: the strict `parseRFC3339`, and when that fails `Parse` with the layout
`RFC3339`, whose result is returned as it is (the checks that follow `Parse` in the
library are switched off there).  `Parse` also takes an hour of one digit, a comma
before the fraction, and a zone of 24 hours or 60 minutes. -/
def parseStrictRFC3339 (localZone : Zone) (s : List Char) : Option Time :=
  match parseRFC3339 localZone s with
  | some t => some t
  | none => parseLayoutRFC3339 localZone s

/-! ## The record and its JSON form -/

deriving instance DecidableEq for Except

/-- `PIDInfo` stores the process ID information. -/
structure PIDInfo where
  PID : Int
  StartTime : Time
  deriving DecidableEq, Repr

/-- `json.MarshalIndent(pidInfo, "", "  ")`. -/
def MarshalIndent (zone : Zone) (p : PIDInfo) : Except String (List Char) :=
  match p.StartTime.MarshalJSON zone with
  | .error e => .error ("json: error calling MarshalJSON for type time.Time: " ++ e)
  | .ok ts =>
    .ok ("\x7b\n  \"pid\": ".toList ++ itoa p.PID ++ ",\n  \"start_time\": ".toList ++ ts ++
      "\n\x7d".toList)

/-- JSON white space. -/
def isSpaceJSON (c : Char) : Bool := c == ' ' || c == '\t' || c == '\r' || c == '\n'

def skipWS : List Char → List Char
  | [] => []
  | c :: r => if isSpaceJSON c then skipWS r else c :: r

def isHex (c : Char) : Bool :=
  isDigit c || (decide ('a' ≤ c) && decide (c ≤ 'f')) || (decide ('A' ≤ c) && decide (c ≤ 'F'))

/-- Scanner states inside a string literal. -/
inductive StrState where
  | plain
  | esc
  | hex (remaining : Nat)
  deriving DecidableEq, Repr

/-- Scans a string literal after its opening quote: the raw text up to the closing
quote and what follows it; `none` on an invalid literal. -/
def scanString : StrState → List Char → Option (List Char × List Char)
  | _, [] => none
  | .plain, c :: r =>
    if c = '"' then some ([], r)
    else if c = '\\' then (scanString .esc r).map (fun p => (c :: p.1, p.2))
    else if c.toNat < 32 then none
    else (scanString .plain r).map (fun p => (c :: p.1, p.2))
  | .esc, c :: r =>
    if c = 'u' then (scanString (.hex 4) r).map (fun p => (c :: p.1, p.2))
    else if c ∈ ['"', '\\', '/', 'b', 'f', 'n', 'r', 't'] then
      (scanString .plain r).map (fun p => (c :: p.1, p.2))
    else none
  | .hex k, c :: r =>
    if isHex c then
      (scanString (if k ≤ 1 then .plain else .hex (k - 1)) r).map (fun p => (c :: p.1, p.2))
    else none

/-- Scanner states inside a number literal. -/
inductive NumState where
  | neg
  | zero
  | int
  | dot
  | frac
  | exp
  | expSign
  | expDigits
  deriving DecidableEq, Repr

/-- Whether a number literal may end in this state. -/
def NumState.final : NumState → Bool
  | .zero | .int | .frac | .expDigits => true
  | _ => false

/-- Scans the rest of a number literal from a state: its text and what follows. -/
def scanNumber : NumState → List Char → Option (List Char × List Char)
  | st, [] => if st.final then some ([], []) else none
  | st, c :: r =>
    let next : Option NumState :=
      match st with
      | .neg => if c = '0' then some .zero else if isDigit c then some .int else none
      | .zero => if c = '.' then some .dot else if c = 'e' ∨ c = 'E' then some .exp else none
      | .int =>
        if isDigit c then some .int else if c = '.' then some .dot
        else if c = 'e' ∨ c = 'E' then some .exp else none
      | .dot => if isDigit c then some .frac else none
      | .frac =>
        if isDigit c then some .frac else if c = 'e' ∨ c = 'E' then some .exp else none
      | .exp =>
        if c = '+' ∨ c = '-' then some .expSign else if isDigit c then some .expDigits else none
      | .expSign => if isDigit c then some .expDigits else none
      | .expDigits => if isDigit c then some .expDigits else none
    match next with
    | some st2 => (scanNumber st2 r).map (fun p => (c :: p.1, p.2))
    | none => if st.final then some ([], c :: r) else none

/-- A scanned JSON value: its kind, and its text where the decoder of `PIDInfo`
reads it (numbers, and strings between their quotes). -/
inductive JItem where
  | null
  | bool (b : Bool)
  | num (lit : List Char)
  | str (raw : List Char)
  | arr
  | obj
  deriving DecidableEq, Repr

/-- Strips a literal name from the front of the input. -/
def stripLit (lit : List Char) (s : List Char) : Option (List Char) :=
  if lit.isPrefixOf s then some (s.drop lit.length) else none

mutual
/-- Scans one JSON value at the front of `s` (no leading white space): the value
and the rest of the input.  `depth` is the nesting still allowed. -/
def scanValue : Nat → Nat → List Char → Option (JItem × List Char)
  | 0, _, _ => none
  | _ + 1, _, [] => none
  | fuel + 1, depth, c :: r =>
    if c = '\x7b' then
      if depth = 0 then none
      else
        match skipWS r with
        | [] => none
        | c2 :: r2 =>
          if c2 = '\x7d' then some (.obj, r2)
          else (scanMembers fuel (depth - 1) (c2 :: r2)).map (fun p => (.obj, p.2))
    else if c = '[' then
      if depth = 0 then none
      else
        match skipWS r with
        | [] => none
        | c2 :: r2 =>
          if c2 = ']' then some (.arr, r2)
          else
            match scanValue fuel (depth - 1) (c2 :: r2) with
            | none => none
            | some (_, rest) => scanElements fuel (depth - 1) rest
    else if c = '"' then (scanString .plain r).map (fun p => (.str p.1, p.2))
    else if c = '-' then (scanNumber .neg r).map (fun p => (.num (c :: p.1), p.2))
    else if c = '0' then (scanNumber .zero r).map (fun p => (.num (c :: p.1), p.2))
    else if isDigit c then (scanNumber .int r).map (fun p => (.num (c :: p.1), p.2))
    else if c = 't' then (stripLit "rue".toList r).map (fun rest => (.bool true, rest))
    else if c = 'f' then (stripLit "alse".toList r).map (fun rest => (.bool false, rest))
    else if c = 'n' then (stripLit "ull".toList r).map (fun rest => (.null, rest))
    else none
/-- Scans an array after one of its elements, up to and including `]`: either the
array ends, or a comma and a further element follow. -/
def scanElements : Nat → Nat → List Char → Option (JItem × List Char)
  | 0, _, _ => none
  | fuel + 1, depth, s =>
    match skipWS s with
    | [] => none
    | c :: r =>
      if c = ']' then some (.arr, r)
      else if c = ',' then
        match scanValue fuel depth (skipWS r) with
        | none => none
        | some (_, rest) => scanElements fuel depth rest
      else none
/-- Scans the members of an object after `{` up to and including `}`: the raw key
and the value of each member in order, and the rest of the input. -/
def scanMembers : Nat → Nat → List Char → Option (List (List Char × JItem) × List Char)
  | 0, _, _ => none
  | _ + 1, _, [] => none
  | fuel + 1, depth, c :: r =>
    if c = '"' then
      match scanString .plain r with
      | none => none
      | some (key, afterKey) =>
        match skipWS afterKey with
        | [] => none
        | c2 :: r2 =>
          if c2 = ':' then
            match scanValue fuel depth (skipWS r2) with
            | none => none
            | some (item, rest) =>
              match skipWS rest with
              | [] => none
              | c3 :: r3 =>
                if c3 = '\x7d' then some ([(key, item)], r3)
                else if c3 = ',' then
                  (scanMembers fuel depth (skipWS r3)).map (fun p => ((key, item) :: p.1, p.2))
                else none
          else none
    else none
end

def hexVal (c : Char) : Nat :=
  if isDigit c then c.toNat - 48
  else if 'a' ≤ c ∧ c ≤ 'f' then c.toNat - 87
  else c.toNat - 55

/-- `getu4`: the value of the four hexadecimal digits of a `\u` escape. -/
def getu4 (a b c d : Char) : Nat :=
  ((hexVal a * 16 + hexVal b) * 16 + hexVal c) * 16 + hexVal d

/-- The character a one-letter escape stands for. -/
def unescape (e : Char) : Char :=
  if e = 'b' then '\x08' else if e = 'f' then '\x0c' else if e = 'n' then '\n'
  else if e = 'r' then '\r' else if e = 't' then '\t' else e

/-- The replacement character U+FFFD. -/
def replacementChar : Char := Char.ofNat 65533

/-- What a pending unpaired high surrogate decodes to. -/
def flushSurrogate (pending : Option Nat) : List Char :=
  match pending with
  | none => []
  | some _ => [replacementChar]

/-- `unquote` on the raw text of a valid string literal: escapes decoded, a
surrogate pair combined, a lone surrogate replaced by U+FFFD.  `pending` is a high
surrogate read by the previous escape. -/
def unquoteFrom (pending : Option Nat) : List Char → List Char
  | [] => flushSurrogate pending
  | c :: r =>
    if c ≠ '\\' then flushSurrogate pending ++ c :: unquoteFrom none r
    else
      match r with
      | [] => flushSurrogate pending
      | e :: r2 =>
        if e ≠ 'u' then flushSurrogate pending ++ unescape e :: unquoteFrom none r2
        else
          match r2 with
          | a :: b :: c2 :: d :: r3 =>
            let v := getu4 a b c2 d
            if 56320 ≤ v ∧ v < 57344 then
              match pending with
              | some hi =>
                Char.ofNat (65536 + (hi - 55296) * 1024 + (v - 56320)) :: unquoteFrom none r3
              | none => replacementChar :: unquoteFrom none r3
            else if 55296 ≤ v ∧ v < 56320 then flushSurrogate pending ++ unquoteFrom (some v) r3
            else flushSurrogate pending ++ Char.ofNat v :: unquoteFrom none r3
          | _ => flushSurrogate pending

def unquote (raw : List Char) : List Char := unquoteFrom none raw

/-- Case folding of field-name matching: ASCII letters to upper case, and the two
non-ASCII runes whose simple fold is an ASCII letter (long s, Kelvin sign). -/
def foldRune (c : Char) : Char :=
  if 'a' ≤ c ∧ c ≤ 'z' then Char.ofNat (c.toNat - 32)
  else if c = Char.ofNat 383 then 'S'
  else if c = Char.ofNat 8490 then 'K'
  else c

def foldName (key : List Char) : List Char := key.map foldRune

/-- `strconv.ParseInt(lit, 10, 64)` on a JSON number literal. -/
def parseIntLit (lit : List Char) : Option Int :=
  match lit with
  | [] => none
  | c :: ds =>
    if c = '-' then
      if ds ≠ [] ∧ ds.all isDigit = true ∧ (digitsVal ds : Int) ≤ 9223372036854775808 then
        some (-(digitsVal ds : Int))
      else none
    else if (c :: ds).all isDigit = true ∧ (digitsVal (c :: ds) : Int) ≤ 9223372036854775807 then
      some (digitsVal (c :: ds))
    else none

/-- The errors `json.Unmarshal` gives for a `PIDInfo` target, by their kind.  The text
of `Error()` is not modelled.
* `notJSON`: a `*json.SyntaxError`, the input is not one well-formed JSON value;
* `wrongType`: a `*json.UnmarshalTypeError`, a well-formed value that does not fit the
  Go value it is meant for;
* `badTime`: the error of `Time.UnmarshalJSON`. -/
inductive UnmarshalError where
  | notJSON
  | wrongType
  | badTime
  deriving DecidableEq, Repr

/-- The state of decoding into a `PIDInfo`: the record so far, and the first type
mismatch met (which `Unmarshal` reports once the input is consumed). -/
structure Decoded where
  info : PIDInfo
  saved : Option UnmarshalError
  deriving DecidableEq, Repr

/-- `saveError`: keeps the first error. -/
def saveError (saved : Option UnmarshalError) (e : UnmarshalError) : Option UnmarshalError :=
  match saved with
  | none => some e
  | some first => some first

/-- Stores one object member into the record: the field is found by its `json` tag
(exactly or under case folding), other keys are skipped; `null` leaves a field as it
was; `pid` takes an integer number that fits an int, anything else is a type mismatch
that is saved; `start_time` goes through `Time.UnmarshalJSON`, which wants a string
and hands its text, escapes untouched, to `parseStrictRFC3339`, and whose error ends
the decoding. -/
def storeMember (localZone : Zone) (d : Decoded) (key : List Char) (item : JItem) :
    Except UnmarshalError Decoded :=
  if foldName (unquote key) = foldName "pid".toList then
    match item with
    | .null => .ok d
    | .num lit =>
      match parseIntLit lit with
      | some n => .ok { d with info := { d.info with PID := n } }
      | none => .ok { d with saved := saveError d.saved .wrongType }
    | _ => .ok { d with saved := saveError d.saved .wrongType }
  else if foldName (unquote key) = foldName "start_time".toList then
    match item with
    | .null => .ok d
    | .str raw =>
      match parseStrictRFC3339 localZone raw with
      | some t => .ok { d with info := { d.info with StartTime := t } }
      | none => .error .badTime
    | _ => .error .badTime
  else .ok d

def storeMembers (localZone : Zone) :
    Decoded → List (List Char × JItem) → Except UnmarshalError Decoded
  | d, [] => .ok d
  | d, (key, item) :: rest =>
    match storeMember localZone d key item with
    | .error e => .error e
    | .ok d2 => storeMembers localZone d2 rest

/-- The deepest nesting of arrays and objects the scanner accepts. -/
def maxNestingDepth : Nat := 10000

/-- The zero value of `PIDInfo`. -/
def PIDInfo.zero : PIDInfo := { PID := 0, StartTime := Time.zero }

/-- `json.Unmarshal(data, &pidInfo)` into a zero `PIDInfo`: the input must be one
valid JSON value; an object fills the record member by member, `null` leaves it
zero, any other value is a type mismatch.  The scanner is given the length of the
input as fuel, beyond which more fuel changes no result (`scan_fuel`). -/
def Unmarshal (localZone : Zone) (data : List Char) : Except UnmarshalError PIDInfo :=
  match skipWS data with
  | [] => .error .notJSON
  | c :: r =>
    if c = '\x7b' then
      match skipWS r with
      | [] => .error .notJSON
      | c2 :: r2 =>
        if c2 = '\x7d' then
          if skipWS r2 = [] then .ok PIDInfo.zero
          else .error .notJSON
        else
          match scanMembers data.length (maxNestingDepth - 1) (c2 :: r2) with
          | none => .error .notJSON
          | some (members, rest) =>
            if skipWS rest = [] then
              match storeMembers localZone { info := PIDInfo.zero, saved := none } members with
              | .error e => .error e
              | .ok d =>
                match d.saved with
                | some e => .error e
                | none => .ok d.info
            else .error .notJSON
    else
      match scanValue data.length maxNestingDepth (c :: r) with
      | none => .error .notJSON
      | some (item, rest) =>
        if skipWS rest = [] then
          if item = .null then .ok PIDInfo.zero
          else .error .wrongType
        else .error .notJSON

/-! ## `fmt.Scanln` -/

/-- `isSpace` of package `fmt`. -/
def isSpace (c : Char) : Bool :=
  let n := c.toNat
  (9 ≤ n && n ≤ 13) || n == 32 || n == 133 || n == 160 || n == 5760 ||
    (8192 ≤ n && n ≤ 8202) || n == 8232 || n == 8233 || n == 8239 || n == 8287 || n == 12288

/-- `SkipSpace` while scanning a line: `inr` is the input from the first rune that
is not a space (empty at end of input), `inl` the input after a newline met first,
the "unexpected newline" error. -/
def skipSpace : List Char → List Char ⊕ List Char
  | [] => .inr []
  | c :: r => if c = '\n' then .inl r else if isSpace c then skipSpace r else .inr (c :: r)

/-- The runes of the next word, and the input from the first space after it. -/
def token : List Char → List Char × List Char
  | [] => ([], [])
  | c :: r => if isSpace c then ([], c :: r) else ((token r).1.cons c, (token r).2)

/-- The end-of-line check of `doScan`: reads up to and including the newline, or up
to and including the first rune that is not a space ("expected newline"). -/
def restOfLine : List Char → List Char
  | [] => []
  | c :: r => if c = '\n' then r else if isSpace c then restOfLine r else r

/-- `fmt.Scanln(&response)` whose results are ignored: the new value of `response`
and the unread rest of standard input.  When the line is empty or the input is at
its end the scan fails before storing anything, and `response` keeps its value. -/
def Scanln (response : List Char) (stdin : List Char) : List Char × List Char :=
  match skipSpace stdin with
  | .inl rest => (response, rest)
  | .inr [] => (response, [])
  | .inr (c :: r) => ((token (c :: r)).1, restOfLine (token (c :: r)).2)

/-! ## Shared pieces of both programs -/

/-- The elements of a path: the text between its slashes. -/
def splitPath : List Char → List (List Char)
  | [] => [[]]
  | c :: r =>
    if c = '/' then [] :: splitPath r
    else
      match splitPath r with
      | [] => [[c]]
      | e :: es => (c :: e) :: es

/-- One element met by the loop of `Clean`.  `out` holds the elements kept so far, the
last one first.  An empty element and `.` are dropped; `..` removes the element before
it, or is kept when the path is not rooted and nothing is left to remove; any other
element is kept. -/
def cleanStep (rooted : Bool) (out : List (List Char)) (elem : List Char) : List (List Char) :=
  if elem = [] ∨ elem = ['.'] then out
  else if elem = ['.', '.'] then
    match out with
    | [] => if rooted then [] else [elem]
    | top :: below => if top = ['.', '.'] then elem :: out else below
  else elem :: out

/-- `filepath.Clean` with `/` as the separator: the shortest path that names the same
file by looking at the text only; the empty result is `.`. -/
def Clean (path : List Char) : List Char :=
  let rooted : Bool := path.head? = some '/'
  let out := (splitPath path).foldl (cleanStep rooted) []
  let body := (if rooted then ['/'] else []) ++ List.intercalate ['/'] out.reverse
  if body = [] then ['.'] else body

/-- `filepath.Join`: the elements from the first one that is not empty, joined by
slashes and cleaned; the empty string when there is none. -/
def filepathJoin (elems : List String) : String :=
  match elems.dropWhile (fun e => e = "") with
  | [] => ""
  | e :: es => String.mk (Clean (List.intercalate ['/'] ((e :: es).map String.toList)))

/-- The record file `~/.config/cron/pid.json`. -/
def pidFilePath (homeDir : String) : String :=
  filepathJoin [homeDir, ".config", "cron", "pid.json"]

/-- An argument of a formatted print. -/
inductive Arg where
  | int (n : Int)
  | str (s : List Char)
  | err (e : String)
  | unmarshalErr (e : UnmarshalError)
  | duration (nanoseconds : Int)
  deriving DecidableEq, Repr

/-! ## The controller: `stable/src/modules/kill.go` -/

namespace Kill

/-- Answer of `os.Stat`. -/
inductive StatResult where
  | found
  | notExist
  | failed (e : String)
  deriving DecidableEq, Repr

/-- The answers of the operating system to the calls the controller makes, one field
per call site of `main`; an error field holds `none` when the call succeeds. -/
structure Env where
  homeDir : Except String String
  statPid : StatResult
  readFile : Except String (List Char)
  zone : Zone
  now : Time
  findErr : Option String
  termErr : Option String
  killErr : Option String
  statBinKill : StatResult
  execErr : Option String
  probeErr : Option String
  statAgain : StatResult
  removeErr : Option String

/-- `syscall.SIGTERM`. -/
def SIGTERM : Nat := 15

/-- What the controller does to the outside world, in order. -/
inductive Effect where
  | printf (format : String) (args : List Arg)
  | println (text : String)
  | print (text : String)
  | scanln
  | stat (path : String)
  | readFile (path : String)
  | findProcess (pid : Int)
  | signal (pid : Int) (sig : Nat)
  | kill (pid : Int)
  | exec (command : String) (args : List (List Char))
  | sleep (seconds : Nat)
  | remove (path : String)
  deriving DecidableEq, Repr

/-- The test `response == "y" || response == "Y"`. -/
def affirmative (response : List Char) : Bool := response = ['y'] || response = ['Y']

/-- Lines 132-147 of `main`: the check for a record file left behind. -/
def staleCheck (env : Env) (pidFile : String) (response stdin : List Char) : List Effect :=
  [.sleep 1, .stat pidFile] ++
  (if env.statAgain = .found then
    [.println
        "Note: PID file still exists. This might indicate the process didn't shut down properly.",
      .print "Remove the PID file? (y/n): ", .scanln] ++
    (if affirmative (Scanln response stdin).1 then
      [.remove pidFile] ++
      (match env.removeErr with
       | some e => [.printf "Error removing PID file: %v\n" [.err e]]
       | none => [.println "PID file removed successfully"])
    else [])
  else [])

/-- Lines 78-113 of `main`: the graceful signal could not be sent. -/
def forceful (env : Env) (pidFile : String) (pid : Int) (e : String)
    (response stdin : List Char) : List Effect :=
  [.printf "Error sending termination signal: %v\n" [.err e],
    .print "Terminate forcefully? (y/n): ", .scanln] ++
  (if affirmative (Scanln response stdin).1 then
    [.kill pid] ++
    (match env.killErr with
     | some e2 =>
       [.printf "Error forcefully terminating process: %v\n" [.err e2],
         .println "Attempting to terminate with system kill command...",
         .stat "/bin/kill",
         .exec (if env.statBinKill = .notExist then "kill" else "/bin/kill")
           ["-9".toList, itoa pid]] ++
       (match env.execErr with
        | some e3 =>
          [.printf "Failed to force kill: %v\n" [.err e3],
            .println "You may need to manually kill the process"]
        | none =>
          [.printf "Process %d has been forcefully terminated\n" [.int pid]] ++
          staleCheck env pidFile (Scanln response stdin).1 (Scanln response stdin).2)
     | none =>
       [.printf "Process %d has been forcefully terminated\n" [.int pid]] ++
       staleCheck env pidFile (Scanln response stdin).1 (Scanln response stdin).2)
  else [.println "Process was not terminated"])

/-- Lines 67-127 of `main`: the operator confirmed termination. -/
def terminate (env : Env) (pidFile : String) (pid : Int) (response stdin : List Char) :
    List Effect :=
  [.findProcess pid] ++
  (match env.findErr with
   | some e => [.printf "Error finding process: %v\n" [.err e]]
   | none =>
     [.printf "Sending termination signal to process %d...\n" [.int pid], .signal pid SIGTERM] ++
     (match env.termErr with
      | some e => forceful env pidFile pid e response stdin
      | none =>
        [.printf "Termination signal sent to process %d\n" [.int pid], .sleep 2, .signal pid 0,
          .println (if env.probeErr = none then
            "Process is still running. It may take a moment to shut down properly."
            else "Process has been terminated successfully")] ++
        staleCheck env pidFile response stdin))

/-- Lines 52-65 of `main`: the record was loaded. -/
def confirm (env : Env) (pidFile : String) (pidInfo : PIDInfo) (stdin : List Char) :
    List Effect :=
  [.printf "Found process with PID: %d\n" [.int pidInfo.PID],
    .printf "Process started at: %s\n" [.str (formatDateTime env.zone pidInfo.StartTime)],
    .printf "Process running for: %s\n"
      [.duration (roundSecond (env.now.Sub pidInfo.StartTime))],
    .print "Do you want to terminate this process? (y/n): ", .scanln] ++
  (if affirmative (Scanln [] stdin).1 then
    terminate env pidFile pidInfo.PID (Scanln [] stdin).1 (Scanln [] stdin).2
  else [.println "Operation cancelled"])

/-- The controller: `main` of `kill.go`, as the effects it performs given the
answers of the operating system and the runes the operator types. -/
def main (env : Env) (stdin : List Char) : List Effect :=
  match env.homeDir with
  | .error e => [.printf "Error getting home directory: %v\n" [.err e]]
  | .ok homeDir =>
    [.stat (pidFilePath homeDir)] ++
    (if env.statPid = .notExist then
      [.println "No background service seems to be running (PID file not found)"]
    else
      [.readFile (pidFilePath homeDir)] ++
      (match env.readFile with
       | .error e => [.printf "Error reading PID file: %v\n" [.err e]]
       | .ok data =>
         match Unmarshal env.zone data with
         | .error e => [.printf "Error parsing PID file: %v\n" [.unmarshalErr e]]
         | .ok pidInfo => confirm env (pidFilePath homeDir) pidInfo stdin))

end Kill

/-! ## The worker: `beta/src/modules/init.go` -/

namespace Daemon

/-- The answers of the operating system to the calls of the worker.  Calls that are
made repeatedly take the number of the call (the `tick` of the world) so that every
call may be answered differently; an error field holds `none` when the call succeeds. -/
structure Env where
  args : List String
  homeDir : Except String String
  zone : Zone
  pid : Int
  executable : Except String String
  startErr : Option String
  childPid : Int
  now : Nat → Time
  mkdirErr : Nat → Option String
  openErr : Nat → Option String
  shortWrite : Nat → Option Nat
  writeFileErr : Nat → Option String
  removeErr : Option String
  sync : Nat → Option String × List Char

/-- What the worker does to the outside world, in order.  `log` is a call of
`logMessage`, whose own effect is on the log file. -/
inductive Event where
  | println (text : String)
  | printf (format : String) (args : List Arg)
  | start (command : String) (args : List String)
  | mkdirAll (path : String)
  | writeFile (path : String) (data : List Char)
  | remove (path : String)
  | exec (command : String) (args : List String)
  | log (message : List Char)
  | notify
  | select (seconds : Nat)
  deriving DecidableEq, Repr

/-- The files the worker owns, the count of calls made so far, and the events so far. -/
structure World where
  tick : Nat
  configDir : Bool
  logDir : Bool
  pidFile : Option (List Char)
  logFile : Option (List Char)
  trace : List Event
  deriving DecidableEq, Repr

/-- The log directory `~/.config/cron/logs`. -/
def logDirPath (homeDir : String) : String := filepathJoin [homeDir, ".config", "cron", "logs"]

/-- The configuration directory `~/.config/cron`. -/
def configDirPath (homeDir : String) : String := filepathJoin [homeDir, ".config", "cron"]

/-- The line `logMessage` formats: `fmt.Sprintf("[%s] %s\n", timestamp, message)`. -/
def logEntry (zone : Zone) (now : Time) (message : List Char) : List Char :=
  ['['] ++ formatDateTime zone now ++ [']', ' '] ++ message ++ ['\n']

/-- `logMessage`: appends one entry to the log file, creating directory and file when
missing; does nothing when the home directory, the directory or the file cannot be
had.  The result of the write is not looked at: `shortWrite` is the number of
characters that reached the file when the write failed midway. -/
def logMessage (env : Env) (w : World) (message : List Char) : World :=
  let w1 := { w with tick := w.tick + 1, trace := w.trace ++ [.log message] }
  match env.homeDir with
  | .error _ => w1
  | .ok _ =>
    match env.mkdirErr w.tick with
    | some _ => w1
    | none =>
      match env.openErr w.tick with
      | some _ => { w1 with configDir := true, logDir := true }
      | none =>
        let entry := logEntry env.zone (env.now w.tick) message
        let written :=
          match env.shortWrite w.tick with
          | none => entry
          | some n => entry.take n
        { w1 with configDir := true, logDir := true,
                  logFile := some (w.logFile.getD [] ++ written) }

/-- `err.Error()` appended to a message, as `fmt.Sprintf("...: %v", err)` does. -/
def withError (message : String) (e : String) : List Char := (message ++ e).toList

/-- `savePID`: writes the record of this process; every failure is logged and the
worker goes on.  The file is named by joining the configuration directory and
`pid.json`, which gives the path `pidFilePath` (`savePID_path`).  A write that fails
is taken to fail before anything is written. -/
def savePID (env : Env) (w : World) : World :=
  match env.homeDir with
  | .error e => logMessage env w (withError "Error getting home directory: " e)
  | .ok homeDir =>
    let w1 := { w with tick := w.tick + 1,
                       trace := w.trace ++ [.mkdirAll (configDirPath homeDir)] }
    match env.mkdirErr w.tick with
    | some e => logMessage env w1 (withError "Error creating config directory: " e)
    | none =>
      let w2 := { w1 with configDir := true }
      match MarshalIndent env.zone { PID := env.pid, StartTime := env.now w.tick } with
      | .error e => logMessage env w2 (withError "Error marshaling PID data: " e)
      | .ok pidData =>
        let pidFile := filepathJoin [configDirPath homeDir, "pid.json"]
        let w3 := { w2 with trace := w2.trace ++ [.writeFile pidFile pidData] }
        match env.writeFileErr w.tick with
        | some e => logMessage env w3 (withError "Error writing PID file: " e)
        | none =>
          logMessage env { w3 with pidFile := some pidData }
            (withError "PID information saved to " pidFile)

/-- The error of `os.Remove` for a file that does not exist. -/
def removeNotExist (path : String) : String :=
  "remove " ++ path ++ ": no such file or directory"

/-- `removePIDFile`: deletes the record file; a failure (the home directory unknown,
the removal refused, the file missing) is logged and nothing else happens. -/
def removePIDFile (env : Env) (w : World) : World :=
  match env.homeDir with
  | .error e => logMessage env w (withError "Error getting home directory: " e)
  | .ok homeDir =>
    let w1 := { w with tick := w.tick + 1, trace := w.trace ++ [.remove (pidFilePath homeDir)] }
    match env.removeErr, w.pidFile with
    | some e, _ => logMessage env w1 (withError "Error removing PID file: " e)
    | none, none =>
      logMessage env w1
        (withError "Error removing PID file: " (removeNotExist (pidFilePath homeDir)))
    | none, some _ =>
      logMessage env { w1 with pidFile := none }
        (withError "PID file removed: " (pidFilePath homeDir))

/-- `runSync`: one run of `rclone sync ~/db gdrive:Data`, its outcome logged. -/
def runSync (env : Env) (w : World) : World :=
  let w1 := logMessage env w "Starting rclone sync from ~/db to gdrive:Data".toList
  match env.homeDir with
  | .error e => logMessage env w1 (withError "Error getting home directory: " e)
  | .ok homeDir =>
    let w2 := { w1 with tick := w1.tick + 1,
                        trace := w1.trace ++
                          [.exec "rclone" ["sync", filepathJoin [homeDir, "db"], "gdrive:Data"]] }
    match env.sync w1.tick with
    | (some e, output) =>
      logMessage env (logMessage env w2 (withError "Error executing rclone command: " e)) output
    | (none, _) => logMessage env w2 "Sync completed successfully".toList

/-- Sixty minutes, in nanoseconds (`60 * time.Minute`). -/
def sixtyMinutes : Int := 60 * 60 * 1000000000

/-- The next run announced after a sync: `time.Now().Add(60 * time.Minute)`. -/
def nextRun (env : Env) (w : World) : Time := (env.now w.tick).Add sixtyMinutes

/-- Lines 80-86 of `main`: the next run is computed and logged, and the loop starts
to wait for sixty minutes or the shutdown notification. -/
def schedule (env : Env) (w : World) : World :=
  let w1 := logMessage env { w with tick := w.tick + 1 }
    ("Next sync scheduled for: ".toList ++ formatClock env.zone (nextRun env w))
  { w1 with trace := w1.trace ++ [.select 3600] }

/-- How a wait of the loop ends. -/
inductive Wake where
  | timer
  | done
  deriving DecidableEq, Repr

/-- The goroutine of `setupSignalHandling`, run when a termination signal arrives
while the loop waits: it logs, then sends on `done`. -/
def signalHandler (env : Env) (w : World) : World :=
  logMessage env w "Termination signal received".toList

/-- Lines 89-93 of `main`: the loop received the shutdown notification. -/
def shutdown (env : Env) (w : World) : World :=
  removePIDFile env (logMessage env w "Background service shutting down".toList)

/-- The sync loop of `main` (lines 75-95), run against the outcomes of its successive
waits.  The second component tells whether `main` returned; it is `false` when the
loop is still waiting after the listed outcomes. -/
def syncLoop (env : Env) : List Wake → World → World × Bool
  | [], w => (schedule env (runSync env w), false)
  | .timer :: rest, w => syncLoop env rest (schedule env (runSync env w))
  | .done :: _, w => (shutdown env (signalHandler env (schedule env (runSync env w))), true)

/-- The worker binary: `main` of `init.go`.  Without `--daemon` it starts itself
again in the background and returns; with it, it records its process, logs, installs
the signal handler and enters the loop. -/
def main (env : Env) (wakes : List Wake) (w : World) : World × Bool :=
  if "--daemon" ∈ env.args then
    let w1 := logMessage env (savePID env w) "Background service started".toList
    syncLoop env wakes { w1 with trace := w1.trace ++ [Event.notify] }
  else
    let w1 := { w with trace := w.trace ++
      [Event.println "Starting scheduled sync, will run every 60 minutes"] }
    match env.executable with
    | .error e =>
      ({ w1 with trace := w1.trace ++ [Event.printf "Error getting executable path: %v\n" [Arg.err e]] },
        true)
    | .ok executable =>
      let w2 := { w1 with trace := w1.trace ++ [Event.start executable ["--daemon"]] }
      match env.startErr with
      | some e =>
        ({ w2 with trace := w2.trace ++ [Event.printf "Error starting daemon process: %v\n" [Arg.err e]] },
          true)
      | none =>
        ({ w2 with trace := w2.trace ++
            [Event.printf "Process ID: %d\n" [Arg.int env.childPid],
              Event.println "\n--- Program is continuing in background services ---"] }, true)

end Daemon

end CronJob

namespace CronJob

/-! ## Vocabulary of the statements, and sample environments -/

/-- Whether `s` follows `layout`, where `d` in the layout stands for any decimal digit
and every other character for itself. -/
def matchesLayout : List Char → List Char → Bool
  | [], [] => true
  | l :: ls, c :: cs => (if l = 'd' then isDigit c else decide (c = l)) && matchesLayout ls cs
  | _, _ => false

/-- A character that stands for itself inside a JSON string literal. -/
def isPlain (c : Char) : Bool := c != '"' && c != '\\' && decide (32 ≤ c.toNat)

/-- A record as `savePID` builds it: the process id and a reading of `time.Now`. -/
def sampleInfo : PIDInfo :=
  { PID := 4242,
    StartTime := { sec := 1730715000, nsec := 123456000, mono := some 5000000, loc := .localZone } }

/-- The record file the worker writes for `sampleInfo` in a zone one hour east of UTC. -/
def sampleRecord : List Char :=
  "\x7b\n  \"pid\": 4242,\n  \"start_time\": \"2024-11-04T11:10:00.123456+01:00\"\n\x7d".toList

/-- What the controller loads from `sampleRecord` in the same zone. -/
def sampleLoaded : PIDInfo :=
  { PID := 4242,
    StartTime := { sec := 1730715000, nsec := 123456000, mono := none, loc := .localZone } }

/-- A path element that `Clean` keeps as it is: not empty, without a slash, and neither
`.` nor `..`. -/
def IsReal (e : List Char) : Prop := e ≠ [] ∧ '/' ∉ e ∧ e ≠ ['.'] ∧ e ≠ ['.', '.']

/-- The shape of the elements `Clean` has kept, the last one first: real elements on
top of a run of `..`, which is empty for a rooted path. -/
def CleanStack (rooted : Bool) (out : List (List Char)) : Prop :=
  ∃ reals k, out = reals ++ List.replicate k ['.', '.'] ∧ (∀ e ∈ reals, IsReal e) ∧
    (rooted = true → k = 0)

/-- The path `Clean` writes for the elements it has kept. -/
def renderPath (rooted : Bool) (out : List (List Char)) : List Char :=
  if (if rooted then ['/'] else []) ++ List.intercalate ['/'] out.reverse = [] then ['.']
  else (if rooted then ['/'] else []) ++ List.intercalate ['/'] out.reverse

/-- A member of the record object that `Unmarshal` does not store: a `pid` that is
neither `null` nor an integer number fitting an int, or a `start_time` that is neither
`null` nor a string the time parser reads.  Members with other keys are never bad. -/
def badMember (localZone : Zone) (m : List Char × JItem) : Bool :=
  if foldName (unquote m.1) = foldName "pid".toList then
    match m.2 with
    | .null => false
    | .num lit => (parseIntLit lit).isNone
    | _ => true
  else if foldName (unquote m.1) = foldName "start_time".toList then
    match m.2 with
    | .null => false
    | .str raw => (parseStrictRFC3339 localZone raw).isNone
    | _ => true
  else false

/-- The members of the JSON object that the content is: each raw key with its value,
in order; `none` when the content is not one well-formed JSON object. -/
def objectMembers (data : List Char) : Option (List (List Char × JItem)) :=
  match skipWS data with
  | [] => none
  | c :: r =>
    if c = '\x7b' then
      match skipWS r with
      | [] => none
      | c2 :: r2 =>
        if c2 = '\x7d' then (if skipWS r2 = [] then some [] else none)
        else
          match scanMembers data.length (maxNestingDepth - 1) (c2 :: r2) with
          | none => none
          | some (members, rest) => if skipWS rest = [] then some members else none
    else none

namespace Kill

/-- The effects up to and including the forceful prompt, on the path where the record
was loaded, the operator confirmed, and the graceful signal failed with `e`. -/
def ladderHead (env : Env) (home : String) (pidInfo : PIDInfo) (e : String) : List Effect :=
  [.stat (pidFilePath home), .readFile (pidFilePath home),
   .printf "Found process with PID: %d\n" [.int pidInfo.PID],
   .printf "Process started at: %s\n" [.str (formatDateTime env.zone pidInfo.StartTime)],
   .printf "Process running for: %s\n" [.duration (roundSecond (env.now.Sub pidInfo.StartTime))],
   .print "Do you want to terminate this process? (y/n): ", .scanln,
   .findProcess pidInfo.PID,
   .printf "Sending termination signal to process %d...\n" [.int pidInfo.PID],
   .signal pidInfo.PID SIGTERM,
   .printf "Error sending termination signal: %v\n" [.err e],
   .print "Terminate forcefully? (y/n): ", .scanln]

/-- The recorded process is gone: the graceful signal fails, the forceful kill
succeeds, and no record file is found afterwards. -/
def envGone : Env where
  homeDir := .ok "/home/u"
  statPid := .found
  readFile := .ok sampleRecord
  zone := fun _ => 3600
  now := ⟨1730718600, 623456000, none, .localZone⟩
  findErr := none
  termErr := some "os: process already finished"
  killErr := none
  statBinKill := .found
  execErr := none
  probeErr := none
  statAgain := .notExist
  removeErr := none

/-- The worker takes the graceful signal but leaves its record file behind. -/
def envStale : Env :=
  { envGone with termErr := none, probeErr := some "os: process already finished",
                 statAgain := .found }

/-- The record file holds an empty JSON object. -/
def envEmptyObject : Env := { envGone with readFile := .ok "\x7b\x7d".toList }

/-- The recorded process no longer exists, and every way of ending it fails: the
graceful signal, the forceful kill and the kill command. -/
def envVanished : Env :=
  { envGone with killErr := some "os: process already finished",
                 execErr := some "exit status 1" }

/-- Whether a character can begin a JSON value. -/
def startsValue (c : Char) : Bool :=
  c = '\x7b' || c = '[' || c = '"' || c = '-' || isDigit c || c = 't' || c = 'f' || c = 'n'

/-- The run of the controller that ends at the parse error `e`: the check for the
record file, the read, and the error message. -/
def parseErrorRun (home : String) (e : UnmarshalError) : List Effect :=
  [.stat (pidFilePath home), .readFile (pidFilePath home),
   .printf "Error parsing PID file: %v\n" [.unmarshalErr e]]

/-- The record file holds text that is not JSON. -/
def envGarbage : Env := { envGone with readFile := .ok "pid=4242".toList }

/-- No record file. -/
def envAbsent : Env := { envGone with statPid := .notExist }

end Kill

namespace Daemon

/-- Number of runs of the sync command in a trace. -/
def syncCount (tr : List Event) : Nat :=
  tr.countP (fun ev => match ev with
    | .exec _ _ => true
    | _ => false)

/-- The world in which the loop waits for the `n + 1`-th time: `n + 1` iterations have
run, each a sync followed by the announcement of the next run. -/
def atWait (env : Env) : Nat → World → World
  | 0, w => schedule env (runSync env w)
  | n + 1, w => atWait env n (schedule env (runSync env w))

/-- A worker whose every call succeeds; its sync command fails once, at call 6,
printing two lines. -/
def envWorker : Env where
  args := ["cron", "--daemon"]
  homeDir := .ok "/home/u"
  zone := fun _ => 3600
  pid := 4242
  executable := .ok "/usr/local/bin/cron"
  startErr := none
  childPid := 4242
  now := fun k => ⟨1730715000 + k, 123456000, some (k * 1000000000), .localZone⟩
  mkdirErr := fun _ => none
  openErr := fun _ => none
  shortWrite := fun _ => none
  writeFileErr := fun _ => none
  removeErr := none
  sync := fun k => if k = 6 then (some "exit status 1", "boom\nbang\n".toList) else (none, [])

/-- The same worker on a system that refuses to remove the record file. -/
def envDenied : Env :=
  { envWorker with
      removeErr := some "remove /home/u/.config/cron/pid.json: permission denied" }

/-- Nothing exists yet. -/
def freshWorld : World :=
  { tick := 0, configDir := false, logDir := false, pidFile := none, logFile := none, trace := [] }

/-- The worker has recorded itself and is about to enter the loop. -/
def runningWorld : World :=
  { tick := 5, configDir := true, logDir := true, pidFile := some sampleRecord,
    logFile := some [], trace := [] }

end Daemon

end CronJob
namespace CronJob
namespace Daemon

/-- The worker started without a home directory in its environment. -/
def envNoHome : Env := { envWorker with homeDir := .error "$HOME is not defined" }

/-- The binary started by hand, without the `--daemon` flag. -/
def envLauncher : Env := { envWorker with args := ["cron"] }

/-- Number of waits of the loop in a trace. -/
def selectCount (tr : List Event) : Nat :=
  tr.countP (fun ev => match ev with
    | .select _ => true
    | _ => false)

end Daemon
end CronJob

namespace CronJob

/-! ### Decimal digits -/

theorem natDigitsAux_small (fuel n : Nat) (acc : List Char) (h : n < 10) :
    natDigitsAux (fuel + 1) n acc = utod n :: acc := by
  simp [natDigitsAux, h]

theorem natDigitsAux_big (fuel n : Nat) (acc : List Char) (h : 10 ≤ n) :
    natDigitsAux (fuel + 1) n acc = natDigitsAux fuel (n / 10) (utod (n % 10) :: acc) := by
  have : ¬ n < 10 := by omega
  simp [natDigitsAux, this]

theorem natDigitsAux_eq : ∀ (fuel n : Nat) (acc : List Char), n < fuel →
    natDigitsAux fuel n acc = natDigits n ++ acc := by
  intro fuel
  induction fuel using Nat.strong_induction_on with
  | _ fuel ih =>
    intro n acc h
    obtain ⟨f, rfl⟩ : ∃ f, fuel = f + 1 := ⟨fuel - 1, by omega⟩
    by_cases hn : n < 10
    · rw [natDigitsAux_small _ _ _ hn, natDigits, natDigitsAux_small _ _ _ hn]
      rfl
    · have hn10 : 10 ≤ n := by omega
      rw [natDigitsAux_big _ _ _ hn10, natDigits, natDigitsAux_big _ _ _ hn10]
      rw [ih f (by omega) (n / 10) _ (by omega), ih n (by omega) (n / 10) _ (by omega)]
      simp

theorem natDigits_small (n : Nat) (h : n < 10) : natDigits n = [utod n] := by
  rw [natDigits, natDigitsAux_small _ _ _ h]

theorem natDigits_big (n : Nat) (h : 10 ≤ n) :
    natDigits n = natDigits (n / 10) ++ [utod (n % 10)] := by
  rw [natDigits, natDigitsAux_big _ _ _ h, natDigitsAux_eq n (n / 10) _ (by omega)]

theorem isDigit_utod (d : Nat) (h : d < 10) : isDigit (utod d) = true := by
  interval_cases d <;> decide

theorem utod_toNat (d : Nat) (h : d < 10) : (utod d).toNat - 48 = d := by
  interval_cases d <;> decide

theorem utod_zero : utod 0 = '0' := rfl

theorem natDigits_two (n : Nat) (h : n < 100) :
    List.replicate (2 - (natDigits n).length) '0' ++ natDigits n = [utod (n / 10), utod (n % 10)] := by
  by_cases h10 : n < 10
  · rw [natDigits_small n h10]
    have : n / 10 = 0 := by omega
    have h2 : n % 10 = n := by omega
    simp [this, h2, utod_zero]
  · rw [natDigits_big n (by omega), natDigits_small (n / 10) (by omega)]
    simp

theorem natDigits_four (n : Nat) (h : n < 10000) :
    List.replicate (4 - (natDigits n).length) '0' ++ natDigits n =
      [utod (n / 1000), utod (n / 100 % 10), utod (n / 10 % 10), utod (n % 10)] := by
  by_cases h10 : n < 10
  · rw [natDigits_small n h10]
    have e1 : n / 1000 = 0 := by omega
    have e2 : n / 100 % 10 = 0 := by omega
    have e3 : n / 10 % 10 = 0 := by omega
    have e4 : n % 10 = n := by omega
    simp [e1, e2, e3, e4, utod_zero, List.replicate]
  · by_cases h100 : n < 100
    · rw [natDigits_big n (by omega), natDigits_small (n / 10) (by omega)]
      have e1 : n / 1000 = 0 := by omega
      have e2 : n / 100 % 10 = 0 := by omega
      have e3 : n / 10 % 10 = n / 10 := by omega
      simp [e1, e2, e3, utod_zero, List.replicate]
    · by_cases h1000 : n < 1000
      · rw [natDigits_big n (by omega), natDigits_big (n / 10) (by omega),
          natDigits_small (n / 10 / 10) (by omega)]
        have e1 : n / 1000 = 0 := by omega
        have e2 : n / 100 % 10 = n / 10 / 10 := by omega
        simp [e1, e2, utod_zero, List.replicate]
      · rw [natDigits_big n (by omega), natDigits_big (n / 10) (by omega),
          natDigits_big (n / 10 / 10) (by omega), natDigits_small (n / 10 / 10 / 10) (by omega)]
        have e1 : n / 1000 = n / 10 / 10 / 10 := by omega
        have e2 : n / 100 % 10 = n / 10 / 10 % 10 := by omega
        simp [e1, e2]

theorem appendInt_two (x : Int) (h0 : 0 ≤ x) (h1 : x < 100) :
    appendInt x 2 = [utod (x.toNat / 10), utod (x.toNat % 10)] := by
  obtain ⟨n, rfl⟩ := Int.eq_ofNat_of_zero_le h0
  have hn : n < 100 := by omega
  have hneg : ¬ ((n : Int) < 0) := by omega
  simp only [appendInt, hneg, if_false, Int.natAbs_ofNat, Int.toNat_ofNat, List.nil_append]
  exact natDigits_two n hn

theorem appendInt_four (x : Int) (h0 : 0 ≤ x) (h1 : x < 10000) :
    appendInt x 4 = [utod (x.toNat / 1000), utod (x.toNat / 100 % 10),
      utod (x.toNat / 10 % 10), utod (x.toNat % 10)] := by
  obtain ⟨n, rfl⟩ := Int.eq_ofNat_of_zero_le h0
  have hn : n < 10000 := by omega
  have hneg : ¬ ((n : Int) < 0) := by omega
  simp only [appendInt, hneg, if_false, Int.natAbs_ofNat, Int.toNat_ofNat, List.nil_append]
  exact natDigits_four n hn

/-! ### The calendar -/

theorem daysSinceEpoch_cycles (n400 n100 n4 n1 : Int) (h100 : 0 ≤ n100 ∧ n100 ≤ 3)
    (h4 : 0 ≤ n4 ∧ n4 ≤ 24) (h1 : 0 ≤ n1 ∧ n1 ≤ 3) :
    daysSinceEpoch (400 * n400 + 100 * n100 + 4 * n4 + n1 + 1)
      = 146097 * n400 + 36524 * n100 + 1461 * n4 + 365 * n1 := by
  simp only [daysSinceEpoch]
  have e1 : (400 * n400 + 100 * n100 + 4 * n4 + n1 + 1 - 1) / 400 = n400 := by omega
  rw [e1]
  have e2 : (400 * n400 + 100 * n100 + 4 * n4 + n1 + 1 - 1 - 400 * n400) / 100 = n100 := by omega
  rw [e2]
  have e3 : (400 * n400 + 100 * n100 + 4 * n4 + n1 + 1 - 1 - 400 * n400 - 100 * n100) / 4 = n4 := by
    omega
  rw [e3]
  omega

theorem isLeap_cycles (n400 n100 n4 n1 : Int) (h100 : 0 ≤ n100 ∧ n100 ≤ 3)
    (h4 : 0 ≤ n4 ∧ n4 ≤ 24) (h1 : 0 ≤ n1 ∧ n1 ≤ 3) :
    isLeap (400 * n400 + 100 * n100 + 4 * n4 + n1 + 1) = true ↔
      (n1 = 3 ∧ (n4 ≠ 24 ∨ n100 = 3)) := by
  simp only [isLeap, Bool.and_eq_true, Bool.or_eq_true, beq_iff_eq, bne_iff_ne, ne_eq]
  omega

theorem absYear_cycles (days : Int) :
    ∃ n400 n100 n4 n1 yd : Int,
      absYear days = (400 * n400 + 100 * n100 + 4 * n4 + n1 + 1, yd) ∧
      (0 ≤ n100 ∧ n100 ≤ 3) ∧ (0 ≤ n4 ∧ n4 ≤ 24) ∧ (0 ≤ n1 ∧ n1 ≤ 3) ∧
      days = 146097 * n400 + 36524 * n100 + 1461 * n4 + 365 * n1 + yd ∧ 0 ≤ yd ∧
      (yd < 365 ∨ (yd = 365 ∧ n1 = 3 ∧ (n4 ≠ 24 ∨ n100 = 3))) := by
  refine ⟨days / 146097,
    (days - 146097 * (days / 146097)) / 36524 - (days - 146097 * (days / 146097)) / 36524 / 4,
    _, _, _, rfl, ?_, ?_, ?_, ?_, ?_, ?_⟩
  all_goals omega

/-- The year and day of the year found by `absYear` name the day they were computed
from, and the day of the year lies within the year. -/
theorem absYear_spec (days : Int) :
    daysSinceEpoch (absYear days).1 + (absYear days).2 = days ∧ 0 ≤ (absYear days).2 ∧
      (absYear days).2 < (if isLeap (absYear days).1 then 366 else 365) := by
  obtain ⟨n400, n100, n4, n1, yd, e, h100, h4, h1, hd, h0, hy⟩ := absYear_cycles days
  rw [e]
  have hy2 := daysSinceEpoch_cycles n400 n100 n4 n1 h100 h4 h1
  have hl := isLeap_cycles n400 n100 n4 n1 h100 h4 h1
  refine ⟨by simp only [hy2]; omega, h0, ?_⟩
  by_cases hleap : isLeap (400 * n400 + 100 * n100 + 4 * n4 + n1 + 1) = true
  · simp only [hleap, if_true]; omega
  · simp only [hleap, if_false]
    have : ¬ (n1 = 3 ∧ (n4 ≠ 24 ∨ n100 = 3)) := fun h => hleap (hl.2 h)
    omega

set_option maxRecDepth 100000 in
theorem monthDay_table : ∀ leap : Bool, ∀ n : Nat, n < 366 →
    ((n : Int) < (if leap then 366 else 365)) →
    1 ≤ (monthDay leap n).1 ∧ (monthDay leap n).1 ≤ 12 ∧
    1 ≤ (monthDay leap n).2 ∧ (monthDay leap n).2 ≤ 31 ∧
    (monthDay leap n).2 ≤
      (if (monthDay leap n).1 = 2 ∧ leap = true then 29
       else daysBefore (monthDay leap n).1 - daysBefore ((monthDay leap n).1 - 1)) ∧
    ydayOf leap (monthDay leap n).1 (monthDay leap n).2 = n := by
  decide

/-- The month and day found by `monthDay` are a date of the calendar and name the day
of the year they were computed from. -/
theorem monthDay_spec (year yday : Int) (h0 : 0 ≤ yday)
    (h1 : yday < (if isLeap year then 366 else 365)) :
    1 ≤ (monthDay (isLeap year) yday).1 ∧ (monthDay (isLeap year) yday).1 ≤ 12 ∧
    1 ≤ (monthDay (isLeap year) yday).2 ∧ (monthDay (isLeap year) yday).2 ≤ 31 ∧
    (monthDay (isLeap year) yday).2 ≤ daysIn (monthDay (isLeap year) yday).1 year ∧
    ydayOf (isLeap year) (monthDay (isLeap year) yday).1 (monthDay (isLeap year) yday).2
      = yday := by
  obtain ⟨n, rfl⟩ := Int.eq_ofNat_of_zero_le h0
  have hn : n < 366 := by
    split_ifs at h1 <;> omega
  have := monthDay_table (isLeap year) n hn h1
  simpa [daysIn] using this

/-- What `absDate` and `absClock` return is a date and a time of day, from which
`Date` computes the second count they were taken from. -/
theorem absDate_spec (abs : Int) :
    1 ≤ (absDate abs).2.1 ∧ (absDate abs).2.1 ≤ 12 ∧
    1 ≤ (absDate abs).2.2 ∧ (absDate abs).2.2 ≤ 31 ∧
    (absDate abs).2.2 ≤ daysIn (absDate abs).2.1 (absDate abs).1 ∧
    (0 ≤ (absClock abs).1 ∧ (absClock abs).1 ≤ 23) ∧
    (0 ≤ (absClock abs).2.1 ∧ (absClock abs).2.1 ≤ 59) ∧
    (0 ≤ (absClock abs).2.2 ∧ (absClock abs).2.2 ≤ 59) ∧
    ∀ nsec, (Date (absDate abs).1 (absDate abs).2.1 (absDate abs).2.2
      (absClock abs).1 (absClock abs).2.1 (absClock abs).2.2 nsec).sec = abs := by
  have hy := absYear_spec (abs / secondsPerDay + unixEpochDays)
  have hm := monthDay_spec (absYear (abs / secondsPerDay + unixEpochDays)).1
    (absYear (abs / secondsPerDay + unixEpochDays)).2 hy.2.1 hy.2.2
  simp only [absDate, absClock, Date]
  refine ⟨hm.1, hm.2.1, hm.2.2.1, hm.2.2.2.1, hm.2.2.2.2.1, ?_, ?_, ?_, ?_⟩
  · simp only [secondsPerDay]; omega
  · simp only [secondsPerDay]; omega
  · simp only [secondsPerDay]; omega
  · intro nsec
    rw [hm.2.2.2.2.2]
    have := hy.1
    simp only [secondsPerDay, unixEpochDays] at this ⊢
    omega

theorem formatDateTime_shape (zone : Zone) (t : Time)
    (hy : 0 ≤ (absDate (t.sec + t.offset zone)).1 ∧ (absDate (t.sec + t.offset zone)).1 ≤ 9999) :
    matchesLayout "dddd-dd-dd dd:dd:dd".toList (formatDateTime zone t) = true := by
  have h := absDate_spec (t.sec + t.offset zone)
  obtain ⟨m1, m2, d1, d2, -, ⟨hh1, hh2⟩, ⟨mi1, mi2⟩, ⟨s1, s2⟩, -⟩ := h
  simp only [formatDateTime]
  rw [appendInt_four _ hy.1 (by omega), appendInt_two _ (by omega) (by omega),
    appendInt_two _ (by omega) (by omega), appendInt_two _ hh1 (by omega),
    appendInt_two _ mi1 (by omega), appendInt_two _ s1 (by omega)]
  have dig : ∀ n : Nat, isDigit (utod (n % 10)) = true :=
    fun n => isDigit_utod _ (Nat.mod_lt _ (by decide))
  have dig2 : ∀ x : Int, 0 ≤ x → x < 100 → isDigit (utod (x.toNat / 10)) = true :=
    fun x h0 h1 => isDigit_utod _ (by omega)
  have dy : isDigit (utod ((absDate (t.sec + t.offset zone)).1.toNat / 1000)) = true :=
    isDigit_utod _ (by omega)
  simp [matchesLayout, dig, dy, dig2 _ (by omega : (0:Int) ≤ (absDate (t.sec + t.offset zone)).2.1) (by omega),
    dig2 _ (by omega : (0:Int) ≤ (absDate (t.sec + t.offset zone)).2.2) (by omega),
    dig2 _ hh1 (by omega), dig2 _ mi1 (by omega), dig2 _ s1 (by omega)]

theorem natDigits_no_newline (n : Nat) : '\n' ∉ natDigits n := by
  induction n using Nat.strong_induction_on with
  | _ n ih =>
    by_cases h : n < 10
    · rw [natDigits_small n h]
      have := isDigit_utod n h
      intro hmem
      simp at hmem
      rw [← hmem] at this
      exact absurd this (by decide)
    · rw [natDigits_big n (by omega)]
      have h1 := ih (n / 10) (by omega)
      have h2 := isDigit_utod (n % 10) (Nat.mod_lt _ (by decide))
      intro hmem
      simp at hmem
      rcases hmem with hmem | hmem
      · exact h1 hmem
      · rw [← hmem] at h2
        exact absurd h2 (by decide)

theorem appendInt_no_newline (x : Int) (w : Nat) : '\n' ∉ appendInt x w := by
  have := natDigits_no_newline x.natAbs
  simp only [appendInt]
  split_ifs <;> simp [this, List.mem_replicate]

theorem formatDateTime_no_newline (zone : Zone) (t : Time) : '\n' ∉ formatDateTime zone t := by
  simp [formatDateTime, appendInt_no_newline]

end CronJob

namespace CronJob

theorem splitPath_ne_nil (p : List Char) : splitPath p ≠ [] := by
  cases p with
  | nil => simp [splitPath]
  | cons c r =>
    simp only [splitPath]
    split_ifs
    · simp
    · split <;> simp

theorem splitPath_cons (c : Char) (r : List Char) (hc : c ≠ '/') :
    ∃ e es, splitPath r = e :: es ∧ splitPath (c :: r) = (c :: e) :: es := by
  cases h : splitPath r with
  | nil => exact absurd h (splitPath_ne_nil r)
  | cons e es => exact ⟨e, es, rfl, by simp [splitPath, hc, h]⟩

theorem splitPath_append (a b : List Char) :
    splitPath (a ++ '/' :: b) = splitPath a ++ splitPath b := by
  induction a with
  | nil => simp [splitPath]
  | cons c a ih =>
    by_cases hc : c = '/'
    · simp [splitPath, hc, ih]
    · obtain ⟨e, es, h1, h2⟩ := splitPath_cons c a hc
      obtain ⟨e2, es2, h3, h4⟩ := splitPath_cons c (a ++ '/' :: b) hc
      rw [List.cons_append, h4, h2]
      rw [ih, h1] at h3
      simp only [List.cons_append, List.cons.injEq] at h3
      rw [← h3.1, ← h3.2]
      rfl

theorem splitPath_of_noslash (e : List Char) (h : '/' ∉ e) : splitPath e = [e] := by
  induction e with
  | nil => rfl
  | cons c e ih =>
    simp only [List.mem_cons, not_or] at h
    have hc : c ≠ '/' := fun hc => h.1 hc.symm
    simp [splitPath, hc, ih h.2]

theorem splitPath_noslash (p : List Char) : ∀ e ∈ splitPath p, '/' ∉ e := by
  induction p with
  | nil => simp [splitPath]
  | cons c r ih =>
    simp only [splitPath]
    by_cases hc : c = '/'
    · simp only [hc, if_true, List.mem_cons]
      rintro e (rfl | he)
      · simp
      · exact ih e he
    · simp only [hc, if_false]
      cases h : splitPath r with
      | nil => exact absurd h (splitPath_ne_nil r)
      | cons e0 es =>
        rw [h] at ih
        simp only [List.mem_cons]
        rintro e (rfl | he)
        · have := ih e0 (by simp)
          simp only [List.mem_cons, not_or]
          exact ⟨fun hh => hc hh.symm, this⟩
        · exact ih e (by simp [he])

theorem splitPath_intercalate (l : List (List Char)) (hne : l ≠ [])
    (h : ∀ e ∈ l, '/' ∉ e) : splitPath (List.intercalate ['/'] l) = l := by
  induction l with
  | nil => exact absurd rfl hne
  | cons e l ih =>
    cases l with
    | nil =>
      have e1 : List.intercalate ['/'] [e] = e := by simp [List.intercalate]
      rw [e1]
      exact splitPath_of_noslash e (h e (by simp))
    | cons e2 l2 =>
      have e1 : List.intercalate ['/'] (e :: e2 :: l2) =
          e ++ '/' :: List.intercalate ['/'] (e2 :: l2) := by
        simp [List.intercalate, List.intersperse]
      rw [e1, splitPath_append, splitPath_of_noslash e (h e (by simp)),
        ih (by simp) (fun x hx => h x (by simp [hx]))]
      rfl


theorem cleanStep_real (r : Bool) (out : List (List Char)) (e : List Char) (h : IsReal e) :
    cleanStep r out e = e :: out := by
  obtain ⟨h1, -, h3, h4⟩ := h
  simp [cleanStep, h1, h3, h4]

theorem foldl_cleanStep_reals (r : Bool) (l : List (List Char)) (h : ∀ e ∈ l, IsReal e) :
    ∀ out, l.foldl (cleanStep r) out = l.reverse ++ out := by
  induction l with
  | nil => simp
  | cons e l ih =>
    intro out
    simp only [List.foldl_cons, cleanStep_real r out e (h e (by simp))]
    rw [ih (fun x hx => h x (by simp [hx]))]
    simp

theorem foldl_cleanStep_dotdots (k : Nat) :
    ∀ j, (List.replicate k ['.', '.']).foldl (cleanStep false) (List.replicate j ['.', '.']) =
      List.replicate (j + k) ['.', '.'] := by
  induction k with
  | zero => simp
  | succ k ih =>
    intro j
    have step : cleanStep false (List.replicate j ['.', '.']) ['.', '.'] =
        List.replicate (j + 1) ['.', '.'] := by
      cases j with
      | zero => simp [cleanStep]
      | succ j => simp [cleanStep, List.replicate_succ]
    rw [List.replicate_succ, List.foldl_cons, step, ih (j + 1)]
    congr 1
    omega

/-- Cleaning the elements of a cleaned path changes nothing. -/
theorem foldl_cleanStep_stack (r : Bool) (out : List (List Char)) (h : CleanStack r out) :
    out.reverse.foldl (cleanStep r) [] = out := by
  obtain ⟨reals, k, rfl, hreal, hk⟩ := h
  have hrev : ∀ e ∈ reals.reverse, IsReal e := fun e he => hreal e (by simpa using he)
  cases r with
  | true =>
    have : k = 0 := hk rfl
    subst this
    simp [foldl_cleanStep_reals true reals.reverse hrev]
  | false =>
    have := foldl_cleanStep_dotdots k 0
    simp only [List.replicate_zero, Nat.zero_add] at this
    simp [List.reverse_append, List.foldl_append, this,
      foldl_cleanStep_reals false reals.reverse hrev]

theorem cleanStep_stack (r : Bool) (out : List (List Char)) (e : List Char)
    (h : CleanStack r out) (he : '/' ∉ e) : CleanStack r (cleanStep r out e) := by
  obtain ⟨reals, k, rfl, hreal, hk⟩ := h
  by_cases h1 : e = [] ∨ e = ['.']
  · have : cleanStep r (reals ++ List.replicate k ['.', '.']) e =
        reals ++ List.replicate k ['.', '.'] := by simp [cleanStep, h1]
    rw [this]
    exact ⟨reals, k, rfl, hreal, hk⟩
  · by_cases h2 : e = ['.', '.']
    · subst h2
      cases reals with
      | nil =>
        cases k with
        | zero =>
          cases r with
          | true => exact ⟨[], 0, by simp [cleanStep], by simp, fun _ => rfl⟩
          | false => exact ⟨[], 1, by simp [cleanStep], by simp, by simp⟩
        | succ k =>
          refine ⟨[], k + 2, by simp [cleanStep, List.replicate_succ], by simp, ?_⟩
          intro hr
          have := hk hr
          omega
      | cons top below =>
        have htop : top ≠ ['.', '.'] := (hreal top (by simp)).2.2.2
        refine ⟨below, k, by simp [cleanStep, htop], fun x hx => hreal x (by simp [hx]), hk⟩
    · have hre : IsReal e :=
        ⟨fun h0 => h1 (Or.inl h0), he, fun h0 => h1 (Or.inr h0), h2⟩
      rw [cleanStep_real r _ e hre]
      refine ⟨e :: reals, k, by simp, ?_, hk⟩
      intro x hx
      simp only [List.mem_cons] at hx
      rcases hx with rfl | hx
      · exact hre
      · exact hreal x hx

theorem foldl_cleanStep_inv (r : Bool) (l : List (List Char)) (hl : ∀ e ∈ l, '/' ∉ e) :
    ∀ out, CleanStack r out → CleanStack r (l.foldl (cleanStep r) out) := by
  induction l with
  | nil => intro out h; exact h
  | cons e l ih =>
    intro out h
    exact ih (fun x hx => hl x (by simp [hx])) _ (cleanStep_stack r out e h (hl e (by simp)))

theorem cleanStack_elems (r : Bool) (out : List (List Char)) (h : CleanStack r out) :
    ∀ e ∈ out, e ≠ [] ∧ '/' ∉ e := by
  obtain ⟨reals, k, rfl, hreal, -⟩ := h
  intro e he
  simp only [List.mem_append, List.mem_replicate] at he
  rcases he with he | ⟨-, rfl⟩
  · exact ⟨(hreal e he).1, (hreal e he).2.1⟩
  · exact ⟨by simp, by simp⟩

theorem intercalate_cons_cons (e e2 : List Char) (l : List (List Char)) :
    List.intercalate ['/'] (e :: e2 :: l) = e ++ '/' :: List.intercalate ['/'] (e2 :: l) := by
  simp [List.intercalate, List.intersperse]

theorem intercalate_head (l : List (List Char)) (hne : l ≠ [])
    (h : ∀ e ∈ l, e ≠ [] ∧ '/' ∉ e) :
    ∃ c rest, List.intercalate ['/'] l = c :: rest ∧ c ≠ '/' := by
  cases l with
  | nil => exact absurd rfl hne
  | cons e l =>
    obtain ⟨h1, h2⟩ := h e (by simp)
    cases e with
    | nil => exact absurd rfl h1
    | cons c e =>
      have hc : c ≠ '/' := fun hc => h2 (by simp [hc])
      cases l with
      | nil => exact ⟨c, e, by simp [List.intercalate], hc⟩
      | cons e2 l2 =>
        exact ⟨c, e ++ '/' :: List.intercalate ['/'] (e2 :: l2),
          by rw [intercalate_cons_cons]; rfl, hc⟩

theorem Clean_eq (path : List Char) :
    Clean path = renderPath (decide (path.head? = some '/'))
      ((splitPath path).foldl (cleanStep (decide (path.head? = some '/'))) []) := rfl

theorem renderPath_ne_nil (r : Bool) (out : List (List Char)) : renderPath r out ≠ [] := by
  unfold renderPath
  by_cases h : (if r then ['/'] else []) ++ List.intercalate ['/'] out.reverse = []
  · rw [if_pos h]
    simp
  · rw [if_neg h]
    exact h

/-- Cleaning a cleaned path followed by one more real element. -/
theorem Clean_render (r : Bool) (out : List (List Char)) (x : List Char)
    (h : CleanStack r out) (hx : IsReal x) :
    Clean (renderPath r out ++ '/' :: x) = renderPath r (x :: out) := by
  have hxs : splitPath x = [x] := splitPath_of_noslash x hx.2.1
  have e0 : ∀ r, cleanStep r [] [] = [] := by intro r; simp [cleanStep]
  have e1 : cleanStep false [] ['.'] = [] := by simp [cleanStep]
  rw [Clean_eq]
  cases out with
  | nil =>
    cases r with
    | true =>
      have e : renderPath true [] ++ '/' :: x = '/' :: '/' :: x := rfl
      have hs : splitPath ('/' :: '/' :: x) = [[], [], x] := by simp [splitPath, hxs]
      rw [e, hs]
      simp only [List.head?_cons, decide_True, List.foldl_cons, List.foldl_nil, e0,
        cleanStep_real _ _ x hx]
    | false =>
      have e : renderPath false [] ++ '/' :: x = '.' :: '/' :: x := rfl
      have hs : splitPath ('.' :: '/' :: x) = [['.'], x] := by simp [splitPath, hxs]
      have hd : decide (('.' :: '/' :: x).head? = some '/') = false := by
        simp
      rw [e, hs, hd]
      simp only [List.foldl_cons, List.foldl_nil, e1, cleanStep_real _ _ x hx]
  | cons top below =>
    have hel := cleanStack_elems r (top :: below) h
    have hrev : ∀ e ∈ (top :: below).reverse, e ≠ [] ∧ '/' ∉ e :=
      fun e he => hel e (List.mem_reverse.mp he)
    have hne : (top :: below).reverse ≠ [] := by simp
    obtain ⟨c, rest, hi, hc⟩ := intercalate_head _ hne hrev
    have hsp := splitPath_intercalate _ hne (fun e he => (hrev e he).2)
    have hfold := foldl_cleanStep_stack r (top :: below) h
    cases r with
    | true =>
      have e : renderPath true (top :: below) ++ '/' :: x =
          '/' :: (List.intercalate ['/'] (top :: below).reverse ++ '/' :: x) := by
        simp [renderPath]
      have hs : ∀ p, splitPath ('/' :: p) = [] :: splitPath p := by
        intro p
        simp [splitPath]
      rw [e, hs, splitPath_append, hsp, hxs]
      simp only [List.head?_cons, decide_True, List.foldl_cons, List.foldl_append,
        List.foldl_nil, e0, hfold, cleanStep_real _ _ x hx]
    | false =>
      have e : renderPath false (top :: below) =
          List.intercalate ['/'] (top :: below).reverse := by
        simp only [renderPath, Bool.false_eq_true, if_false, List.nil_append, hi]
        simp
      rw [e]
      have hd : decide ((List.intercalate ['/'] (top :: below).reverse ++ '/' :: x).head? =
          some '/') = false := by
        rw [hi]
        simp [hc]
      rw [hd, splitPath_append, hsp, hxs, List.foldl_append, hfold]
      simp only [List.foldl_cons, List.foldl_nil, cleanStep_real _ _ x hx]

theorem Clean_append_real (q x : List Char) (hq : q ≠ []) (hx : IsReal x) :
    Clean (Clean q ++ '/' :: x) = Clean (q ++ '/' :: x) := by
  have hxs : splitPath x = [x] := splitPath_of_noslash x hx.2.1
  have hstack : CleanStack (decide (q.head? = some '/'))
      ((splitPath q).foldl (cleanStep (decide (q.head? = some '/'))) []) :=
    foldl_cleanStep_inv _ _ (splitPath_noslash q) [] ⟨[], 0, rfl, by simp, fun _ => rfl⟩
  have hhead : (q ++ '/' :: x).head? = q.head? := by
    cases q with
    | nil => exact absurd rfl hq
    | cons c q => rfl
  rw [Clean_eq q, Clean_render _ _ x hstack hx, Clean_eq (q ++ '/' :: x), hhead,
    splitPath_append, hxs, List.foldl_append]
  simp [cleanStep_real _ _ x hx]

theorem Clean_ne_nil (path : List Char) : Clean path ≠ [] := by
  rw [Clean_eq]
  exact renderPath_ne_nil _ _

theorem filepathJoin_cons (e : String) (es : List String) (he : e ≠ "") :
    filepathJoin (e :: es) =
      String.mk (Clean (List.intercalate ['/'] (e.toList :: es.map String.toList))) := by
  simp [filepathJoin, List.dropWhile, he]

/-- The record file as `savePID` names it, by joining the configuration directory and
`pid.json`, is the record file as the controller and `removePIDFile` name it. -/
theorem savePID_path (home : String) :
    filepathJoin [Daemon.configDirPath home, "pid.json"] = pidFilePath home := by
  have hreal : IsReal "pid.json".toList := by
    refine ⟨by decide, by decide, by decide, by decide⟩
  by_cases hh : home = ""
  · subst hh
    decide
  · have hq : List.intercalate ['/'] [home.toList, ".config".toList, "cron".toList] ≠ [] := by
      intro h
      have h2 : home.toList = [] := by
        rw [intercalate_cons_cons] at h
        exact (List.append_eq_nil.mp h).1
      apply hh
      cases home with
      | mk data =>
        simp only [String.toList] at h2
        subst h2
        rfl
    have h1 : Daemon.configDirPath home =
        String.mk (Clean (List.intercalate ['/']
          [home.toList, ".config".toList, "cron".toList])) :=
      filepathJoin_cons home [".config", "cron"] hh
    have h3 : Daemon.configDirPath home ≠ "" := by
      rw [h1]
      intro h
      exact Clean_ne_nil _ (congrArg String.toList h)
    have h4 : List.intercalate ['/']
        [home.toList, ".config".toList, "cron".toList, "pid.json".toList] =
        List.intercalate ['/'] [home.toList, ".config".toList, "cron".toList] ++
          '/' :: "pid.json".toList := by
      simp [List.intercalate, List.intersperse]
    have h5 : ∀ q : List Char, List.intercalate ['/'] [q, "pid.json".toList] =
        q ++ '/' :: "pid.json".toList := by
      intro q
      simp [List.intercalate, List.intersperse]
    rw [filepathJoin_cons _ _ h3, pidFilePath, filepathJoin_cons home _ hh]
    simp only [List.map_cons, List.map_nil]
    rw [h4, h5, h1]
    exact congrArg String.mk (Clean_append_real _ _ hq hreal)

end CronJob

namespace CronJob

/-! ### The scanner's fuel -/

theorem skipWS_length (s : List Char) : (skipWS s).length ≤ s.length := by
  induction s with
  | nil => simp [skipWS]
  | cons c r ih =>
    simp only [skipWS]
    split_ifs
    · simp only [List.length_cons]; omega
    · exact le_refl _

theorem skipWS_cons_length {s r : List Char} {c : Char} (h : skipWS s = c :: r) :
    r.length < s.length := by
  have := skipWS_length s
  rw [h] at this
  simp only [List.length_cons] at this
  omega

theorem scanString_shorter : ∀ (s : List Char) (st : StrState) (p : List Char × List Char),
    scanString st s = some p → p.2.length < s.length := by
  intro s
  induction s with
  | nil => intro st p h; cases st <;> simp [scanString] at h
  | cons c r ih =>
    intro st p h
    cases st with
    | plain =>
      simp only [scanString] at h
      split_ifs at h
      · simp only [Option.some.injEq] at h; subst h; simp
      · simp only [Option.map_eq_some'] at h
        obtain ⟨q, hq, rfl⟩ := h
        have := ih _ _ hq
        simp only [List.length_cons]; omega
      · simp only [Option.map_eq_some'] at h
        obtain ⟨q, hq, rfl⟩ := h
        have := ih _ _ hq
        simp only [List.length_cons]; omega
    | esc =>
      simp only [scanString] at h
      split_ifs at h
      all_goals
        simp only [Option.map_eq_some'] at h
        obtain ⟨q, hq, rfl⟩ := h
        have := ih _ _ hq
        simp only [List.length_cons]; omega
    | hex k =>
      simp only [scanString] at h
      split_ifs at h
      all_goals
        simp only [Option.map_eq_some'] at h
        obtain ⟨q, hq, rfl⟩ := h
        have := ih _ _ hq
        simp only [List.length_cons]; omega

theorem scanNumber_shorter : ∀ (s : List Char) (st : NumState) (p : List Char × List Char),
    scanNumber st s = some p → p.2.length ≤ s.length := by
  intro s
  induction s with
  | nil =>
    intro st p h
    simp only [scanNumber] at h
    split_ifs at h
    simp only [Option.some.injEq] at h; subst h; simp
  | cons c r ih =>
    intro st p h
    simp only [scanNumber] at h
    split at h
    · simp only [Option.map_eq_some'] at h
      obtain ⟨q, hq, rfl⟩ := h
      have := ih _ _ hq
      simp only [List.length_cons]; omega
    · split_ifs at h
      simp only [Option.some.injEq] at h; subst h; simp

theorem stripLit_shorter (lit s rest : List Char) (h : stripLit lit s = some rest) :
    rest.length ≤ s.length := by
  simp only [stripLit] at h
  split_ifs at h
  simp only [Option.some.injEq] at h
  subst h
  simp

theorem scan_shorter : ∀ fuel : Nat,
    (∀ d s p, scanValue fuel d s = some p → p.2.length < s.length) ∧
    (∀ d s p, scanElements fuel d s = some p → p.2.length < s.length) ∧
    (∀ d s p, scanMembers fuel d s = some p → p.2.length < s.length) := by
  intro fuel
  induction fuel with
  | zero =>
    refine ⟨?_, ?_, ?_⟩ <;> intro d s p h
    · simp [scanValue] at h
    · simp [scanElements] at h
    · simp [scanMembers] at h
  | succ f ih =>
    obtain ⟨ihV, ihE, ihM⟩ := ih
    refine ⟨?_, ?_, ?_⟩
    · intro d s p h
      cases s with
      | nil => simp [scanValue] at h
      | cons c r =>
        simp only [scanValue] at h
        simp only [List.length_cons]
        split_ifs at h
        · rcases hw : skipWS r with _ | ⟨c2, r2⟩
          · simp [hw] at h
          · have hl := skipWS_cons_length hw
            simp only [hw] at h
            split_ifs at h
            · simp only [Option.some.injEq] at h; subst h; simp only []; omega
            · simp only [Option.map_eq_some'] at h
              obtain ⟨q, hq, rfl⟩ := h
              have := ihM _ _ _ hq
              simp only [List.length_cons] at this ⊢; omega
        · rcases hw : skipWS r with _ | ⟨c2, r2⟩
          · simp [hw] at h
          · have hl := skipWS_cons_length hw
            simp only [hw] at h
            split_ifs at h
            · simp only [Option.some.injEq] at h; subst h; simp only []; omega
            · rcases hv : scanValue f (d - 1) (c2 :: r2) with _ | ⟨it, rest⟩
              · simp [hv] at h
              · simp only [hv] at h
                have h1 := ihV _ _ _ hv
                have h2 := ihE _ _ _ h
                simp only [List.length_cons] at h1 ⊢; omega
        · simp only [Option.map_eq_some'] at h
          obtain ⟨q, hq, rfl⟩ := h
          have := scanString_shorter _ _ _ hq
          simp only []; omega
        · simp only [Option.map_eq_some'] at h
          obtain ⟨q, hq, rfl⟩ := h
          have := scanNumber_shorter _ _ _ hq
          simp only []; omega
        · simp only [Option.map_eq_some'] at h
          obtain ⟨q, hq, rfl⟩ := h
          have := scanNumber_shorter _ _ _ hq
          simp only []; omega
        · simp only [Option.map_eq_some'] at h
          obtain ⟨q, hq, rfl⟩ := h
          have := scanNumber_shorter _ _ _ hq
          simp only []; omega
        · simp only [Option.map_eq_some'] at h
          obtain ⟨q, hq, rfl⟩ := h
          have := stripLit_shorter _ _ _ hq
          simp only []; omega
        · simp only [Option.map_eq_some'] at h
          obtain ⟨q, hq, rfl⟩ := h
          have := stripLit_shorter _ _ _ hq
          simp only []; omega
        · simp only [Option.map_eq_some'] at h
          obtain ⟨q, hq, rfl⟩ := h
          have := stripLit_shorter _ _ _ hq
          simp only []; omega
    · intro d s p h
      simp only [scanElements] at h
      rcases hw : skipWS s with _ | ⟨c, r⟩
      · simp [hw] at h
      · have hl := skipWS_cons_length hw
        simp only [hw] at h
        split_ifs at h
        · simp only [Option.some.injEq] at h; subst h; simp only []; omega
        · rcases hv : scanValue f d (skipWS r) with _ | ⟨it, rest⟩
          · simp [hv] at h
          · simp only [hv] at h
            have h1 := ihV _ _ _ hv
            have h2 := ihE _ _ _ h
            have h3 := skipWS_length r
            simp only [] at h1; omega
    · intro d s p h
      cases s with
      | nil => simp [scanMembers] at h
      | cons c r =>
        simp only [scanMembers] at h
        simp only [List.length_cons]
        split_ifs at h
        rcases hk : scanString .plain r with _ | ⟨key, afterKey⟩
        · simp [hk] at h
        · simp only [hk] at h
          have hk2 := scanString_shorter _ _ _ hk
          rcases hw : skipWS afterKey with _ | ⟨c2, r2⟩
          · simp [hw] at h
          · have hl := skipWS_cons_length hw
            simp only [hw] at h
            split_ifs at h
            rcases hv : scanValue f d (skipWS r2) with _ | ⟨it, rest⟩
            · simp [hv] at h
            · simp only [hv] at h
              have h1 := ihV _ _ _ hv
              have h3 := skipWS_length r2
              rcases hw2 : skipWS rest with _ | ⟨c3, r3⟩
              · simp [hw2] at h
              · have hl2 := skipWS_cons_length hw2
                simp only [hw2] at h
                split_ifs at h
                · simp only [Option.some.injEq] at h; subst h
                  simp only [] at h1 hk2 ⊢; omega
                · simp only [Option.map_eq_some'] at h
                  obtain ⟨q, hq, rfl⟩ := h
                  have h4 := ihM _ _ _ hq
                  have h5 := skipWS_length r3
                  simp only [] at h1 hk2 ⊢; omega

/-- Fuel beyond the length of the input changes nothing: on an input no longer than
`fuel`, every scan gives with more fuel what it gives with `fuel`. -/
theorem scan_fuel : ∀ fuel : Nat,
    (∀ d s more, s.length ≤ fuel → fuel ≤ more → scanValue more d s = scanValue fuel d s) ∧
    (∀ d s more, s.length ≤ fuel → fuel ≤ more →
      scanElements more d s = scanElements fuel d s) ∧
    (∀ d s more, s.length ≤ fuel → fuel ≤ more →
      scanMembers more d s = scanMembers fuel d s) := by
  intro fuel
  induction fuel with
  | zero =>
    refine ⟨?_, ?_, ?_⟩ <;> intro d s more hs _
    all_goals
      have hnil : s = [] := List.length_eq_zero.mp (by omega)
      subst hnil
      cases more <;> simp [scanValue, scanElements, scanMembers, skipWS]
  | succ f ih =>
    obtain ⟨ihV, ihE, ihM⟩ := ih
    refine ⟨?_, ?_, ?_⟩
    · intro d s more hs hm
      obtain ⟨g, rfl⟩ : ∃ g, more = g + 1 := ⟨more - 1, by omega⟩
      cases s with
      | nil => simp [scanValue]
      | cons c r =>
        simp only [List.length_cons] at hs
        simp only [scanValue]
        rcases hw : skipWS r with _ | ⟨c2, r2⟩
        · rfl
        · have hl := skipWS_length r
          rw [hw] at hl
          have eM := ihM (d - 1) (c2 :: r2) g (by omega) (by omega)
          have eV := ihV (d - 1) (c2 :: r2) g (by omega) (by omega)
          simp only [eM, eV]
          rcases hv : scanValue f (d - 1) (c2 :: r2) with _ | ⟨it, rest⟩
          · rfl
          · have hr := (scan_shorter f).1 _ _ _ hv
            simp only [] at hr
            have eE := ihE (d - 1) rest g (by omega) (by omega)
            simp only [eE]
    · intro d s more hs hm
      obtain ⟨g, rfl⟩ : ∃ g, more = g + 1 := ⟨more - 1, by omega⟩
      simp only [scanElements]
      rcases hw : skipWS s with _ | ⟨c, r⟩
      · rfl
      · have hl := skipWS_cons_length hw
        have h3 := skipWS_length r
        have eV := ihV d (skipWS r) g (by omega) (by omega)
        simp only [eV]
        rcases hv : scanValue f d (skipWS r) with _ | ⟨it, rest⟩
        · rfl
        · have hr := (scan_shorter f).1 _ _ _ hv
          simp only [] at hr
          have eE := ihE d rest g (by omega) (by omega)
          simp only [eE]
    · intro d s more hs hm
      obtain ⟨g, rfl⟩ : ∃ g, more = g + 1 := ⟨more - 1, by omega⟩
      cases s with
      | nil => simp [scanMembers]
      | cons c r =>
        simp only [List.length_cons] at hs
        simp only [scanMembers]
        rcases hk : scanString .plain r with _ | ⟨key, afterKey⟩
        · rfl
        · have hk2 := scanString_shorter _ _ _ hk
          simp only [] at hk2 ⊢
          rcases hw : skipWS afterKey with _ | ⟨c2, r2⟩
          · rfl
          · have hl := skipWS_cons_length hw
            have h3 := skipWS_length r2
            have eV := ihV d (skipWS r2) g (by omega) (by omega)
            simp only [eV]
            rcases hv : scanValue f d (skipWS r2) with _ | ⟨it, rest⟩
            · rfl
            · have hr := (scan_shorter f).1 _ _ _ hv
              simp only [] at hr ⊢
              rcases hw2 : skipWS rest with _ | ⟨c3, r3⟩
              · rfl
              · have hl2 := skipWS_cons_length hw2
                have h5 := skipWS_length r3
                have eM := ihM d (skipWS r3) g (by omega) (by omega)
                simp only [eM]

end CronJob

namespace CronJob

/-! ### Reading decimal digits back -/

theorem digitsVal_append (s : List Char) (c : Char) :
    digitsVal (s ++ [c]) = digitsVal s * 10 + (c.toNat - 48) := by
  simp [digitsVal, List.foldl_append]

theorem digitsVal_natDigits (n : Nat) : digitsVal (natDigits n) = n := by
  induction n using Nat.strong_induction_on with
  | _ n ih =>
    by_cases h : n < 10
    · rw [natDigits_small n h]
      simp [digitsVal, utod_toNat n h]
    · rw [natDigits_big n (by omega), digitsVal_append, ih (n / 10) (by omega),
        utod_toNat _ (Nat.mod_lt _ (by decide))]
      omega

theorem natDigits_all_digits (n : Nat) : (natDigits n).all isDigit = true := by
  induction n using Nat.strong_induction_on with
  | _ n ih =>
    by_cases h : n < 10
    · rw [natDigits_small n h]
      simp [isDigit_utod n h]
    · rw [natDigits_big n (by omega)]
      simp only [List.all_append, ih (n / 10) (by omega), Bool.true_and]
      simp [isDigit_utod _ (Nat.mod_lt n (by decide : 0 < 10))]

theorem natDigits_ne_nil (n : Nat) : natDigits n ≠ [] := by
  by_cases h : n < 10
  · rw [natDigits_small n h]; simp
  · rw [natDigits_big n (by omega)]; simp

theorem digitsVal_two (a b : Nat) (ha : a < 10) (hb : b < 10) :
    digitsVal [utod a, utod b] = a * 10 + b := by
  simp [digitsVal, utod_toNat a ha, utod_toNat b hb]

theorem digitsVal_four (a b c d : Nat) (ha : a < 10) (hb : b < 10) (hc : c < 10) (hd : d < 10) :
    digitsVal [utod a, utod b, utod c, utod d] = ((a * 10 + b) * 10 + c) * 10 + d := by
  simp [digitsVal, utod_toNat a ha, utod_toNat b hb, utod_toNat c hc, utod_toNat d hd]

theorem parseUint_two (x lo hi : Int) (h0 : 0 ≤ x) (h1 : x < 100) (hlo : lo ≤ x) (hhi : x ≤ hi) :
    parseUint [utod (x.toNat / 10), utod (x.toNat % 10)] lo hi = some x := by
  have ha : x.toNat / 10 < 10 := by omega
  have hb : x.toNat % 10 < 10 := by omega
  have hv : (digitsVal [utod (x.toNat / 10), utod (x.toNat % 10)] : Int) = x := by
    rw [digitsVal_two _ _ ha hb]
    omega
  simp only [parseUint, List.all_cons, List.all_nil, isDigit_utod _ ha, isDigit_utod _ hb,
    Bool.and_self, if_true, hv]
  have : ¬ (x < lo ∨ hi < x) := by omega
  simp [this]

theorem parseUint_four (x lo hi : Int) (h0 : 0 ≤ x) (h1 : x < 10000) (hlo : lo ≤ x)
    (hhi : x ≤ hi) :
    parseUint [utod (x.toNat / 1000), utod (x.toNat / 100 % 10), utod (x.toNat / 10 % 10),
      utod (x.toNat % 10)] lo hi = some x := by
  have ha : x.toNat / 1000 < 10 := by omega
  have hb : x.toNat / 100 % 10 < 10 := by omega
  have hc : x.toNat / 10 % 10 < 10 := by omega
  have hd : x.toNat % 10 < 10 := by omega
  have hv : (digitsVal [utod (x.toNat / 1000), utod (x.toNat / 100 % 10),
      utod (x.toNat / 10 % 10), utod (x.toNat % 10)] : Int) = x := by
    rw [digitsVal_four _ _ _ _ ha hb hc hd]
    omega
  simp only [parseUint, List.all_cons, List.all_nil, isDigit_utod _ ha, isDigit_utod _ hb,
    isDigit_utod _ hc, isDigit_utod _ hd, Bool.and_self, if_true, hv]
  have : ¬ (x < lo ∨ hi < x) := by omega
  simp [this]

/-! ### The fraction of a second -/

theorem digitsVal_zeros (k : Nat) (ds : List Char) :
    digitsVal (List.replicate k '0' ++ ds) = digitsVal ds := by
  induction k with
  | zero => simp
  | succ k ih =>
    have : ∀ l : List Char, digitsVal ('0' :: l) = digitsVal l := by
      intro l; simp [digitsVal]
    rw [List.replicate_succ, List.cons_append, this, ih]

theorem natDigits_length_le (k n : Nat) (h : n < 10 ^ (k + 1)) : (natDigits n).length ≤ k + 1 := by
  induction k generalizing n with
  | zero => rw [natDigits_small n (by simpa using h)]; simp
  | succ k ih =>
    by_cases h10 : n < 10
    · rw [natDigits_small n h10]; simp
    · rw [natDigits_big n (by omega)]
      have : n / 10 < 10 ^ (k + 1) := by
        rw [Nat.div_lt_iff_lt_mul (by decide)]
        calc n < 10 ^ (k + 1 + 1) := h
          _ = 10 ^ (k + 1) * 10 := by ring
      have := ih (n / 10) this
      simp
      omega

/-- The nine digits `appendInt` writes for a nanosecond count. -/
theorem appendInt_nine (n : Nat) (h : n < 1000000000) :
    (appendInt (n : Int) 9).length = 9 ∧ (appendInt (n : Int) 9).all isDigit = true ∧
      digitsVal (appendInt (n : Int) 9) = n := by
  have hneg : ¬ ((n : Int) < 0) := by omega
  have hl := natDigits_length_le 8 n (by simpa using h)
  simp only [appendInt, hneg, if_false, Int.natAbs_ofNat, List.nil_append]
  refine ⟨by simp; omega, ?_, ?_⟩
  · simp only [List.all_append, natDigits_all_digits, Bool.and_true]
    simp [List.all_replicate]
    right
    decide
  · rw [digitsVal_zeros, digitsVal_natDigits]

theorem trimZeros_snoc_zero (ds : List Char) : trimZeros (ds ++ ['0']) = trimZeros ds := by
  simp [trimZeros]

theorem trimZeros_snoc_other (ds : List Char) (c : Char) (h : c ≠ '0') :
    trimZeros (ds ++ [c]) = ds ++ [c] := by
  simp [trimZeros, h]

theorem trimZeros_spec (ds : List Char) (hd : ds.all isDigit = true) :
    (trimZeros ds).all isDigit = true ∧ (trimZeros ds).length ≤ ds.length ∧
    digitsVal ds = digitsVal (trimZeros ds) * 10 ^ (ds.length - (trimZeros ds).length) ∧
    (digitsVal ds ≠ 0 → trimZeros ds ≠ []) := by
  induction ds using List.reverseRecOn with
  | nil => simp [trimZeros, digitsVal]
  | append_singleton ds c ih =>
    simp only [List.all_append, Bool.and_eq_true, List.all_cons, List.all_nil, Bool.and_true] at hd
    by_cases hc : c = '0'
    · subst hc
      obtain ⟨h1, h2, h3, h4⟩ := ih hd.1
      rw [trimZeros_snoc_zero, digitsVal_append]
      refine ⟨h1, by simp; omega, ?_, ?_⟩
      · have e : (ds ++ ['0']).length - (trimZeros ds).length =
            (ds.length - (trimZeros ds).length) + 1 := by simp; omega
        rw [e, pow_succ, ← mul_assoc, ← h3]
        simp
      · intro hne
        apply h4
        intro h0
        apply hne
        rw [h0]
        simp
    · rw [trimZeros_snoc_other ds c hc]
      refine ⟨by simp [hd.1, hd.2], le_refl _, by simp, by simp⟩

theorem takeWhile_digits_append (t z : List Char) (ht : t.all isDigit = true)
    (hz : ∀ c ∈ z.head?, isDigit c = false) :
    (t ++ z).takeWhile isDigit = t ∧ (t ++ z).dropWhile isDigit = z := by
  induction t with
  | nil =>
    cases z with
    | nil => simp
    | cons c z =>
      have := hz c (by simp)
      simp [List.takeWhile, List.dropWhile, this]
  | cons c t ih =>
    simp only [List.all_cons, Bool.and_eq_true] at ht
    obtain ⟨i1, i2⟩ := ih ht.2
    simp [List.takeWhile, List.dropWhile, ht.1, i1, i2]

/-! ### The zone suffix -/

theorem appendZone_form (offset : Int) (h0 : offset ≠ 0) (h60 : offset % 60 = 0)
    (hhr : (quoT offset 60).natAbs / 60 < 24) :
    appendZone offset =
      [if offset < 0 then '-' else '+',
       utod ((quoT offset 60).natAbs / 60 / 10), utod ((quoT offset 60).natAbs / 60 % 10), ':',
       utod ((quoT offset 60).natAbs % 60 / 10), utod ((quoT offset 60).natAbs % 60 % 10)] := by
  have hs : (quoT offset 60 < 0) ↔ offset < 0 := by
    simp only [quoT]
    split_ifs <;> omega
  simp only [appendZone, h0, if_false]
  rw [appendInt_two _ (by omega) (by omega), appendInt_two _ (by omega) (by omega)]
  by_cases hneg : offset < 0
  · simp only [hs, hneg, if_true]
    rfl
  · simp only [hs, hneg, if_false]
    rfl

theorem head_appendZone_not_digit (offset : Int) :
    ∀ c ∈ (appendZone offset).head?, isDigit c = false ∧ c ≠ '.' := by
  intro c hc
  simp only [appendZone] at hc
  split_ifs at hc <;> simp at hc <;> subst hc <;> decide

theorem appendZone_ne_nil (offset : Int) : appendZone offset ≠ [] := by
  simp only [appendZone]
  split_ifs <;> simp

theorem parseZone_six (localZone : Zone) (t : Time) (sg a b c d : Char)
    (hsg : sg = '-' ∨ sg = '+') :
    parseZone localZone t [sg, a, b, ':', c, d] =
      match parseUint [a, b] 0 23, parseUint [c, d] 0 59 with
      | some hr, some mm =>
        some { t with
          sec := t.sec - (hr * 60 + mm) * 60 * (if sg = '-' then -1 else 1),
          loc := if localZone (t.sec - (hr * 60 + mm) * 60 * (if sg = '-' then -1 else 1)) =
              (hr * 60 + mm) * 60 * (if sg = '-' then -1 else 1)
            then .localZone else .fixed ((hr * 60 + mm) * 60 * (if sg = '-' then -1 else 1)) }
      | _, _ => none := by
  have hne : sg ≠ 'Z' := by
    rcases hsg with h | h <;> subst h <;> decide
  rcases h1 : parseUint [a, b] 0 23 with _ | hr <;>
    rcases h2 : parseUint [c, d] 0 59 with _ | mm <;>
    simp [parseZone, h1, h2, hne, hsg]

theorem parseZone_appendZone (localZone : Zone) (t : Time) (offset : Int)
    (h60 : offset % 60 = 0) (hhr : offset ≠ 0 → (quoT offset 60).natAbs / 60 < 24) :
    ∃ u, parseZone localZone t (appendZone offset) = some u ∧ u.sec = t.sec - offset ∧
      u.nsec = t.nsec ∧ u.mono = t.mono ∧
      (t.loc = .utc → u.offset localZone = offset) := by
  by_cases h0 : offset = 0
  · subst h0
    refine ⟨t, by simp [parseZone, appendZone], by simp, rfl, rfl, ?_⟩
    intro hl
    simp [Time.offset, hl]
  · have hH := hhr h0
    rw [appendZone_form offset h0 h60 hH]
    have hM : (quoT offset 60).natAbs % 60 < 60 := Nat.mod_lt _ (by decide)
    have p1 := parseUint_two (((quoT offset 60).natAbs / 60 : Nat) : Int) 0 23
      (by omega) (by omega) (by omega) (by omega)
    have p2 := parseUint_two (((quoT offset 60).natAbs % 60 : Nat) : Int) 0 59
      (by omega) (by omega) (by omega) (by omega)
    simp only [Int.toNat_ofNat] at p1 p2
    have hsg : (if offset < 0 then '-' else '+') = '-' ∨ (if offset < 0 then '-' else '+') = '+' := by
      split_ifs <;> simp
    have hsg2 : ((if offset < 0 then '-' else '+') = '-') ↔ offset < 0 := by
      split_ifs with h <;> simp [h]
    have hval : ((((quoT offset 60).natAbs / 60 : Nat) : Int) * 60 +
        (((quoT offset 60).natAbs % 60 : Nat) : Int)) * 60 *
          (if (if offset < 0 then '-' else '+') = '-' then -1 else 1) = offset := by
      simp only [hsg2, quoT]
      split_ifs <;> omega
    rw [parseZone_six localZone t _ _ _ _ _ hsg]
    simp only [p1, p2, hval]
    refine ⟨_, rfl, rfl, rfl, rfl, ?_⟩
    intro _
    simp only [Time.offset]
    split_ifs with hc
    · exact hc
    · rfl

/-! ### RFC 3339 text read back -/

theorem parseRFC3339_fields (localZone : Zone)
    (y1 y2 y3 y4 m1 m2 d1 d2 h1 h2 i1 i2 s1 s2 : Char) (r : List Char) :
    parseRFC3339 localZone
        (y1 :: y2 :: y3 :: y4 :: '-' :: m1 :: m2 :: '-' :: d1 :: d2 :: 'T' :: h1 :: h2 :: ':' ::
          i1 :: i2 :: ':' :: s1 :: s2 :: r) =
      match parseUint [y1, y2, y3, y4] 0 9999, parseUint [m1, m2] 1 12 with
      | some year, some month =>
        match parseUint [d1, d2] 1 (daysIn month year), parseUint [h1, h2] 0 23,
              parseUint [i1, i2] 0 59, parseUint [s1, s2] 0 59 with
        | some day, some hour, some min, some sec =>
          if r.get? 0 = some '.' ∧ (r.get? 1).any isDigit then
            parseZone localZone
              (Date year month day hour min sec (parseNanoseconds ((r.drop 1).takeWhile isDigit)))
              ((r.drop 1).dropWhile isDigit)
          else parseZone localZone (Date year month day hour min sec 0) r
        | _, _, _, _ => none
      | _, _ => none := by
  simp [parseRFC3339]

theorem parse_fraction (localZone : Zone) (year month day hour min sec : Int) (nsec : Nat)
    (hns : nsec < 1000000000) (offset : Int) :
    (if (appendNano nsec ++ appendZone offset).get? 0 = some '.' ∧
          ((appendNano nsec ++ appendZone offset).get? 1).any isDigit then
        parseZone localZone
          (Date year month day hour min sec
            (parseNanoseconds (((appendNano nsec ++ appendZone offset).drop 1).takeWhile isDigit)))
          (((appendNano nsec ++ appendZone offset).drop 1).dropWhile isDigit)
      else parseZone localZone (Date year month day hour min sec 0)
        (appendNano nsec ++ appendZone offset)) =
      parseZone localZone (Date year month day hour min sec nsec) (appendZone offset) := by
  have hz := head_appendZone_not_digit offset
  by_cases h0 : nsec = 0
  · subst h0
    have : ¬ ((appendZone offset).get? 0 = some '.') := by
      intro h
      rw [List.get?_zero] at h
      exact (hz '.' (by simp [h])).2 rfl
    simp only [appendNano, if_true, List.nil_append]
    rw [if_neg (fun h => this h.1)]
  · obtain ⟨hl, hd, hv⟩ := appendInt_nine nsec hns
    obtain ⟨t1, t2, t3, t4⟩ := trimZeros_spec (appendInt (nsec : Int) 9) hd
    have hne : trimZeros (appendInt (nsec : Int) 9) ≠ [] := t4 (by rw [hv]; exact h0)
    obtain ⟨k1, k2⟩ := takeWhile_digits_append (trimZeros (appendInt (nsec : Int) 9))
      (appendZone offset) t1 (fun c hc => (hz c hc).1)
    have hget : ((trimZeros (appendInt (nsec : Int) 9) ++ appendZone offset).get? 0).any isDigit
        = true := by
      rcases hT : trimZeros (appendInt (nsec : Int) 9) with _ | ⟨c, T⟩
      · exact absurd hT hne
      · rw [hT] at t1
        simp only [List.all_cons, Bool.and_eq_true] at t1
        simp [t1.1]
    have hpn : parseNanoseconds (trimZeros (appendInt (nsec : Int) 9)) = nsec := by
      simp only [parseNanoseconds]
      rw [List.take_of_length_le (by omega)]
      rw [hl] at t3
      rw [← t3, hv]
    simp only [appendNano, h0, if_false, List.cons_append, List.get?_cons_zero, List.drop_succ_cons,
      List.drop_zero, true_and]
    have hget1 : (('.' :: (trimZeros (appendInt (nsec : Int) 9) ++ appendZone offset)).get? 1) =
        (trimZeros (appendInt (nsec : Int) 9) ++ appendZone offset).get? 0 := rfl
    rw [hget1, hget, k1, k2, hpn]
    simp

/-- Reading back what `appendFormatRFC3339` wrote gives the instant and the zone
offset that were written, for a year of four digits and a zone offset of whole
minutes below 24 hours. -/
theorem parseRFC3339_appendFormat (zoneW zoneC : Zone) (t : Time)
    (hy : 0 ≤ (absDate (t.sec + t.offset zoneW)).1 ∧ (absDate (t.sec + t.offset zoneW)).1 ≤ 9999)
    (hns : t.nsec < 1000000000) (h60 : t.offset zoneW % 60 = 0)
    (hhr : t.offset zoneW ≠ 0 → (quoT (t.offset zoneW) 60).natAbs / 60 < 24) :
    ∃ u, parseRFC3339 zoneC (appendFormatRFC3339 zoneW t) = some u ∧ u.sec = t.sec ∧
      u.nsec = t.nsec ∧ u.mono = none ∧ u.offset zoneC = t.offset zoneW := by
  obtain ⟨m1, m2, d1, d2, d3, ⟨hh1, hh2⟩, ⟨mi1, mi2⟩, ⟨s1, s2⟩, hdate⟩ :=
    absDate_spec (t.sec + t.offset zoneW)
  simp only [appendFormatRFC3339]
  rw [appendInt_four _ hy.1 (by omega), appendInt_two _ (by omega) (by omega),
    appendInt_two _ (by omega) (by omega), appendInt_two _ hh1 (by omega),
    appendInt_two _ mi1 (by omega), appendInt_two _ s1 (by omega)]
  simp only [List.cons_append, List.nil_append, List.append_assoc]
  rw [parseRFC3339_fields]
  rw [parseUint_four _ 0 9999 hy.1 (by omega) hy.1 hy.2,
    parseUint_two _ 1 12 (by omega) (by omega) m1 m2]
  simp only []
  rw [parseUint_two _ 1 _ (by omega) (by omega) d1 d3,
    parseUint_two _ 0 23 hh1 (by omega) hh1 hh2,
    parseUint_two _ 0 59 mi1 (by omega) mi1 mi2,
    parseUint_two _ 0 59 s1 (by omega) s1 s2]
  simp only []
  rw [parse_fraction zoneC _ _ _ _ _ _ t.nsec hns]
  obtain ⟨u, hu, usec, unsec, umono, uoff⟩ := parseZone_appendZone zoneC
    (Date (absDate (t.sec + t.offset zoneW)).1 (absDate (t.sec + t.offset zoneW)).2.1
      (absDate (t.sec + t.offset zoneW)).2.2 (absClock (t.sec + t.offset zoneW)).1
      (absClock (t.sec + t.offset zoneW)).2.1 (absClock (t.sec + t.offset zoneW)).2.2 t.nsec)
    (t.offset zoneW) h60 hhr
  refine ⟨u, hu, ?_, ?_, ?_, uoff rfl⟩
  · rw [usec, hdate t.nsec]
    omega
  · rw [unsec]
    rfl
  · rw [umono]
    rfl

/-! ### The JSON text of a record read back -/

theorem scanString_plain (s rest : List Char) (h : s.all isPlain = true) :
    scanString .plain (s ++ '"' :: rest) = some (s, rest) := by
  induction s with
  | nil => simp [scanString]
  | cons c s ih =>
    simp only [List.all_cons, Bool.and_eq_true] at h
    have hc := h.1
    simp only [isPlain, Bool.and_eq_true, bne_iff_ne, ne_eq, decide_eq_true_eq] at hc
    have h32 : ¬ c.toNat < 32 := by omega
    simp [scanString, hc.1.1, hc.1.2, h32, ih h.2]

theorem isDigit_props (c : Char) (h : isDigit c = true) :
    c ≠ '\x7b' ∧ c ≠ '[' ∧ c ≠ '"' ∧ c ≠ '-' ∧ c ≠ '.' ∧ c ≠ 'e' ∧ c ≠ 'E' ∧ c ≠ ',' ∧
      isSpaceJSON c = false ∧ isPlain c = true := by
  simp only [isDigit, Bool.and_eq_true, decide_eq_true_eq] at h
  have h1 : 48 ≤ c.toNat := h.1
  have h2 : c.toNat ≤ 57 := h.2
  have key : ∀ d : Char, (d.toNat < 48 ∨ 57 < d.toNat) → c ≠ d := by
    intro d hd hcd
    subst hcd
    omega
  refine ⟨key _ (by decide), key _ (by decide), key _ (by decide), key _ (by decide),
    key _ (by decide), key _ (by decide), key _ (by decide), key _ (by decide), ?_, ?_⟩
  · simp [isSpaceJSON, key ' ' (by decide), key '\t' (by decide), key '\r' (by decide),
      key '\n' (by decide)]
  · simp only [isPlain, Bool.and_eq_true, bne_iff_ne, ne_eq, decide_eq_true_eq]
    exact ⟨⟨key _ (by decide), key _ (by decide)⟩, by omega⟩

theorem scanNumber_int_digits (ds rest : List Char) (h : ds.all isDigit = true) :
    scanNumber .int (ds ++ ',' :: rest) = some (ds, ',' :: rest) := by
  induction ds with
  | nil =>
    have : isDigit ',' = false := by decide
    simp [scanNumber, NumState.final, this]
  | cons c ds ih =>
    simp only [List.all_cons, Bool.and_eq_true] at h
    simp [scanNumber, h.1, ih h.2]

theorem natDigits_head (n : Nat) (h : 1 ≤ n) :
    ∃ c ds, natDigits n = c :: ds ∧ isDigit c = true ∧ c ≠ '0' ∧ ds.all isDigit = true := by
  induction n using Nat.strong_induction_on with
  | _ n ih =>
    by_cases h10 : n < 10
    · refine ⟨utod n, [], natDigits_small n h10, isDigit_utod n h10, ?_, rfl⟩
      interval_cases n <;> decide
    · obtain ⟨c, ds, e, hc, hc0, hds⟩ := ih (n / 10) (by omega) (by omega)
      refine ⟨c, ds ++ [utod (n % 10)], ?_, hc, hc0, ?_⟩
      · rw [natDigits_big n (by omega), e]; rfl
      · simp [hds, isDigit_utod _ (Nat.mod_lt n (by decide : 0 < 10))]

/-- The scanner reads the decimal text of an integer as one number literal. -/
theorem scanValue_itoa (fuel depth : Nat) (n : Int) (rest : List Char) :
    scanValue (fuel + 1) depth (itoa n ++ ',' :: rest) = some (.num (itoa n), ',' :: rest) := by
  have hcomma : isDigit ',' = false := by decide
  by_cases hneg : n < 0
  · obtain ⟨c, ds, e, hc, hc0, hds⟩ := natDigits_head n.natAbs (by omega)
    obtain ⟨p1, p2, p3, p4, -⟩ := isDigit_props c hc
    simp only [itoa, appendInt, hneg, if_true, e, List.replicate, Nat.zero_sub, List.append_nil,
      List.cons_append, List.nil_append]
    have : ('-' : Char) ≠ '\x7b' ∧ ('-' : Char) ≠ '[' ∧ ('-' : Char) ≠ '"' := by decide
    simp [scanValue, this, scanNumber, hc, hc0, scanNumber_int_digits ds rest hds]
  · by_cases h0 : n = 0
    · subst h0
      have e : itoa 0 = ['0'] := by decide
      rw [e]
      have : ('0' : Char) ≠ '\x7b' ∧ ('0' : Char) ≠ '[' ∧ ('0' : Char) ≠ '"' ∧ ('0' : Char) ≠ '-' := by
        decide
      simp [scanValue, this, scanNumber, NumState.final]
    · obtain ⟨c, ds, e, hc, hc0, hds⟩ := natDigits_head n.natAbs (by omega)
      obtain ⟨p1, p2, p3, p4, -⟩ := isDigit_props c hc
      simp only [itoa, appendInt, hneg, if_false, e, List.replicate, Nat.zero_sub,
        List.cons_append, List.nil_append]
      simp [scanValue, p1, p2, p3, p4, hc, hc0, scanNumber_int_digits ds rest hds]

theorem skipWS_itoa (n : Int) (rest : List Char) : skipWS (itoa n ++ rest) = itoa n ++ rest := by
  by_cases hneg : n < 0
  · simp only [itoa, appendInt, hneg, if_true, List.cons_append, List.nil_append, List.append_assoc]
    have : isSpaceJSON '-' = false := by decide
    simp [skipWS, this]
  · obtain ⟨c, ds, e, hc⟩ : ∃ c ds, natDigits n.natAbs = c :: ds ∧ isDigit c = true := by
      by_cases h0 : n.natAbs = 0
      · exact ⟨'0', [], by rw [h0]; decide, by decide⟩
      · obtain ⟨c, ds, e, hc, -, -⟩ := natDigits_head n.natAbs (by omega)
        exact ⟨c, ds, e, hc⟩
    simp only [itoa, appendInt, hneg, if_false, e, List.replicate, Nat.zero_sub,
      List.cons_append, List.nil_append]
    simp [skipWS, (isDigit_props c hc).2.2.2.2.2.2.2.2.1]

theorem parseIntLit_itoa (n : Int) (hlo : -9223372036854775808 ≤ n)
    (hhi : n ≤ 9223372036854775807) : parseIntLit (itoa n) = some n := by
  by_cases hneg : n < 0
  · have hv := digitsVal_natDigits n.natAbs
    have hne := natDigits_ne_nil n.natAbs
    have hall := natDigits_all_digits n.natAbs
    simp only [itoa, appendInt, hneg, if_true, List.replicate, Nat.zero_sub, List.append_nil,
      List.cons_append, List.nil_append, parseIntLit]
    have hb : ((digitsVal (natDigits n.natAbs) : Nat) : Int) ≤ 9223372036854775808 := by
      rw [hv]; omega
    simp only [hne, ne_eq, not_false_eq_true, hall, hb, and_self, if_true]
    rw [hv]
    congr 1
    omega
  · obtain ⟨c, ds, e, hc⟩ : ∃ c ds, natDigits n.natAbs = c :: ds ∧ isDigit c = true := by
      by_cases h0 : n.natAbs = 0
      · exact ⟨'0', [], by rw [h0]; decide, by decide⟩
      · obtain ⟨c, ds, e, hc, -, -⟩ := natDigits_head n.natAbs (by omega)
        exact ⟨c, ds, e, hc⟩
    have hv := digitsVal_natDigits n.natAbs
    have hall := natDigits_all_digits n.natAbs
    rw [e] at hv hall
    simp only [itoa, appendInt, hneg, if_false, e, List.replicate, Nat.zero_sub,
      List.cons_append, List.nil_append, parseIntLit]
    have hcm : c ≠ '-' := (isDigit_props c hc).2.2.2.1
    have hb : ((digitsVal (c :: ds) : Nat) : Int) ≤ 9223372036854775807 := by
      rw [hv]; omega
    simp only [hcm, if_false, hall, hb, and_self, if_true]
    rw [hv]
    congr 1
    omega

theorem appendInt_plain (x : Int) (w : Nat) : ∀ c ∈ appendInt x w, isPlain c = true := by
  intro c hc
  have hd : ∀ d ∈ natDigits x.natAbs, isPlain d = true := by
    intro d hdm
    have := natDigits_all_digits x.natAbs
    rw [List.all_eq_true] at this
    exact (isDigit_props d (this d hdm)).2.2.2.2.2.2.2.2.2
  simp only [appendInt] at hc
  split_ifs at hc
  · simp only [List.append_assoc, List.mem_append, List.mem_singleton, List.mem_replicate] at hc
    rcases hc with h | h | h
    · subst h; decide
    · rw [h.2]; decide
    · exact hd c h
  · simp only [List.nil_append, List.mem_append, List.mem_replicate] at hc
    rcases hc with h | h
    · rw [h.2]; decide
    · exact hd c h

theorem trimZeros_subset (ds : List Char) : ∀ c ∈ trimZeros ds, c ∈ ds := by
  intro c hc
  simp only [trimZeros, List.mem_reverse] at hc
  have := (List.dropWhile_suffix (fun c => c == '0') (l := ds.reverse)).subset hc
  simpa using this

theorem appendFormatRFC3339_plain (zone : Zone) (t : Time) :
    (appendFormatRFC3339 zone t).all isPlain = true := by
  rw [List.all_eq_true]
  intro c hc
  simp only [appendFormatRFC3339, List.mem_append, List.mem_singleton] at hc
  have hn : ∀ d ∈ appendNano t.nsec, isPlain d = true := by
    intro d hd
    simp only [appendNano] at hd
    split_ifs at hd
    · simp at hd
    · simp only [List.mem_cons] at hd
      rcases hd with h | h
      · subst h; decide
      · exact appendInt_plain _ _ d (trimZeros_subset _ d h)
  have hz : ∀ d ∈ appendZone (t.offset zone), isPlain d = true := by
    intro d hd
    simp only [appendZone] at hd
    split_ifs at hd
    · simp at hd; subst hd; decide
    · simp only [List.mem_append, List.mem_singleton] at hd
      rcases hd with ((h | h) | h) | h
      · subst h; decide
      · exact appendInt_plain _ _ d h
      · subst h; decide
      · exact appendInt_plain _ _ d h
    · simp only [List.mem_append, List.mem_singleton] at hd
      rcases hd with ((h | h) | h) | h
      · subst h; decide
      · exact appendInt_plain _ _ d h
      · subst h; decide
      · exact appendInt_plain _ _ d h
  simp only [or_assoc] at hc
  rcases hc with h | h | h | h | h | h | h | h | h | h | h | h | h
  all_goals first
    | exact appendInt_plain _ _ c h
    | exact hn c h
    | exact hz c h
    | (subst h; decide)

theorem scanValue_string (fuel depth : Nat) (s rest : List Char) (hp : s.all isPlain = true) :
    scanValue (fuel + 1) depth ('"' :: (s ++ '"' :: rest)) = some (.str s, rest) := by
  have : ('"' : Char) ≠ '\x7b' ∧ ('"' : Char) ≠ '[' := by decide
  simp [scanValue, this, scanString_plain s rest hp]

theorem scanMembers_record (fuel depth : Nat) (n : Int) (rfc : List Char)
    (hp : rfc.all isPlain = true) :
    scanMembers (fuel + 3) depth
        ('"' :: 'p' :: 'i' :: 'd' :: '"' :: ':' :: ' ' ::
          (itoa n ++ ',' :: '\n' :: ' ' :: ' ' :: '"' :: 's' :: 't' :: 'a' :: 'r' :: 't' :: '_' ::
            't' :: 'i' :: 'm' :: 'e' :: '"' :: ':' :: ' ' :: '"' ::
              (rfc ++ '"' :: '\n' :: '\x7d' :: []))) =
      some ([("pid".toList, .num (itoa n)), ("start_time".toList, .str rfc)], []) := by
  have hs := scanValue_string fuel depth rfc ['\n', '\x7d'] hp
  have hv := scanValue_itoa (fuel + 1) depth n
    ('\n' :: ' ' :: ' ' :: '"' :: 's' :: 't' :: 'a' :: 'r' :: 't' :: '_' ::
            't' :: 'i' :: 'm' :: 'e' :: '"' :: ':' :: ' ' :: '"' ::
              (rfc ++ '"' :: '\n' :: '\x7d' :: []))
  have hw := skipWS_itoa n (',' :: '\n' :: ' ' :: ' ' :: '"' :: 's' :: 't' :: 'a' :: 'r' :: 't' ::
    '_' :: 't' :: 'i' :: 'm' :: 'e' :: '"' :: ':' :: ' ' :: '"' ::
              (rfc ++ '"' :: '\n' :: '\x7d' :: []))
  simp [scanMembers, scanString, skipWS, isSpaceJSON, hv, hw, hs]

theorem MarshalIndent_form (zone : Zone) (r : PIDInfo) (bytes : List Char)
    (h : MarshalIndent zone r = .ok bytes) :
    (0 ≤ (absDate (r.StartTime.sec + r.StartTime.offset zone)).1 ∧
      (absDate (r.StartTime.sec + r.StartTime.offset zone)).1 ≤ 9999) ∧
    (r.StartTime.offset zone ≠ 0 → (quoT (r.StartTime.offset zone) 60).natAbs / 60 < 24) ∧
    bytes = '\x7b' :: '\n' :: ' ' :: ' ' :: '"' :: 'p' :: 'i' :: 'd' :: '"' :: ':' :: ' ' ::
      (itoa r.PID ++ ',' :: '\n' :: ' ' :: ' ' :: '"' :: 's' :: 't' :: 'a' :: 'r' :: 't' :: '_' ::
        't' :: 'i' :: 'm' :: 'e' :: '"' :: ':' :: ' ' :: '"' ::
          (appendFormatRFC3339 zone r.StartTime ++ '"' :: '\n' :: '\x7d' :: [])) := by
  simp only [MarshalIndent] at h
  rcases hm : r.StartTime.MarshalJSON zone with e | ts
  · rw [hm] at h
    cases h
  · rw [hm] at h
    simp only [Except.ok.injEq] at h
    simp only [Time.MarshalJSON] at hm
    split_ifs at hm with h1 h2
    simp only [Except.ok.injEq] at hm
    refine ⟨by omega, ?_, ?_⟩
    · intro hne
      by_contra hc
      exact h2 ⟨hne, by omega⟩
    · rw [← h, ← hm]
      have e1 : "\x7b\n  \"pid\": ".toList =
          ['\x7b', '\n', ' ', ' ', '"', 'p', 'i', 'd', '"', ':', ' '] := rfl
      have e2 : ",\n  \"start_time\": ".toList =
          [',', '\n', ' ', ' ', '"', 's', 't', 'a', 'r', 't', '_', 't', 'i', 'm', 'e', '"', ':',
            ' '] := rfl
      have e3 : "\n\x7d".toList = ['\n', '\x7d'] := rfl
      rw [e1, e2, e3]
      simp

/-- Whatever `MarshalIndent` produced for a record with a zone offset of whole minutes
is accepted by `Unmarshal`, in whatever zone, and gives the record back. -/
theorem load_of_saved (zoneW zoneC : Zone) (r : PIDInfo) (bytes : List Char)
    (hpid : -9223372036854775808 ≤ r.PID ∧ r.PID ≤ 9223372036854775807)
    (hnsec : r.StartTime.nsec < 1000000000)
    (hzone : r.StartTime.offset zoneW % 60 = 0)
    (hsave : MarshalIndent zoneW r = .ok bytes) :
    ∃ loaded, Unmarshal zoneC bytes = .ok loaded ∧ loaded.PID = r.PID ∧
      loaded.StartTime.sec = r.StartTime.sec ∧ loaded.StartTime.nsec = r.StartTime.nsec ∧
      loaded.StartTime.offset zoneC = r.StartTime.offset zoneW := by
  obtain ⟨hy, hhr, hb⟩ := MarshalIndent_form zoneW r bytes hsave
  obtain ⟨u, hu, usec, unsec, -, uoff⟩ :=
    parseRFC3339_appendFormat zoneW zoneC r.StartTime hy hnsec hzone hhr
  have hplain := appendFormatRFC3339_plain zoneW r.StartTime
  refine ⟨{ PID := r.PID, StartTime := u }, ?_, rfl, usec, unsec, uoff⟩
  obtain ⟨k, hk⟩ : ∃ k, bytes.length = k + 3 := ⟨bytes.length - 3, by rw [hb]; simp⟩
  have hm := scanMembers_record k (maxNestingDepth - 1) r.PID
    (appendFormatRFC3339 zoneW r.StartTime) hplain
  have hpidk : foldName (unquote "pid".toList) = foldName "pid".toList := by decide
  have hst1 : foldName (unquote "start_time".toList) ≠ foldName "pid".toList := by decide
  have hst2 : foldName (unquote "start_time".toList) = foldName "start_time".toList := by decide
  have hstore : storeMembers zoneC { info := PIDInfo.zero, saved := none }
      [("pid".toList, .num (itoa r.PID)),
        ("start_time".toList, .str (appendFormatRFC3339 zoneW r.StartTime))] =
      .ok { info := { PID := r.PID, StartTime := u }, saved := none } := by
    have s1 : storeMember zoneC { info := PIDInfo.zero, saved := none } "pid".toList
        (.num (itoa r.PID)) =
        .ok { info := { PID := r.PID, StartTime := Time.zero }, saved := none } := by
      unfold storeMember
      rw [if_pos hpidk]
      simp only [parseIntLit_itoa r.PID hpid.1 hpid.2]
      rfl
    have s2 : storeMember zoneC { info := { PID := r.PID, StartTime := Time.zero }, saved := none }
        "start_time".toList (.str (appendFormatRFC3339 zoneW r.StartTime)) =
        .ok { info := { PID := r.PID, StartTime := u }, saved := none } := by
      unfold storeMember
      rw [if_neg hst1, if_pos hst2]
      simp only [parseStrictRFC3339, hu]
    simp only [storeMembers, s1, s2]
  have hstore2 : storeMembers zoneC { info := PIDInfo.zero, saved := none }
      [(['p', 'i', 'd'], .num (itoa r.PID)),
        (['s', 't', 'a', 'r', 't', '_', 't', 'i', 'm', 'e'],
          .str (appendFormatRFC3339 zoneW r.StartTime))] =
      .ok { info := { PID := r.PID, StartTime := u }, saved := none } := hstore
  unfold Unmarshal
  rw [hk, hb]
  simp [skipWS, isSpaceJSON, hm, hstore2]

theorem MarshalIndent_ok (zone : Zone) (r : PIDInfo)
    (hyear : 0 ≤ (absDate (r.StartTime.sec + r.StartTime.offset zone)).1 ∧
      (absDate (r.StartTime.sec + r.StartTime.offset zone)).1 ≤ 9999)
    (hday : -86400 < r.StartTime.offset zone ∧ r.StartTime.offset zone < 86400) :
    ∃ bytes, MarshalIndent zone r = .ok bytes := by
  have h1 : ¬ ((absDate (r.StartTime.sec + r.StartTime.offset zone)).1 < 0 ∨
      9999 < (absDate (r.StartTime.sec + r.StartTime.offset zone)).1) := by omega
  have h2 : ¬ (r.StartTime.offset zone ≠ 0 ∧
      24 ≤ (quoT (r.StartTime.offset zone) 60).natAbs / 60) := by
    simp only [quoT]
    split_ifs <;> omega
  simp only [MarshalIndent, Time.MarshalJSON, h1, h2, if_false]
  exact ⟨_, rfl⟩

/-- C1: a valid record is one whose process id fits an `int`, whose nanosecond field is
below one second, and whose start time can be written in RFC 3339: a year of four
digits and a zone offset of whole minutes within a day.  For every such record the
worker's `MarshalIndent` produces bytes, the controller's `Unmarshal` (in whatever
zone) accepts them, and the loaded record has the same process id and the same instant
to the nanosecond, with the same zone offset. -/
theorem C1_load_save_roundtrip (zoneW zoneC : Zone) (r : PIDInfo)
    (hpid : -9223372036854775808 ≤ r.PID ∧ r.PID ≤ 9223372036854775807)
    (hnsec : r.StartTime.nsec < 1000000000)
    (hyear : 0 ≤ (absDate (r.StartTime.sec + r.StartTime.offset zoneW)).1 ∧
      (absDate (r.StartTime.sec + r.StartTime.offset zoneW)).1 ≤ 9999)
    (hzone : r.StartTime.offset zoneW % 60 = 0 ∧
      -86400 < r.StartTime.offset zoneW ∧ r.StartTime.offset zoneW < 86400) :
    ∃ bytes loaded, MarshalIndent zoneW r = .ok bytes ∧ Unmarshal zoneC bytes = .ok loaded ∧
      loaded.PID = r.PID ∧ loaded.StartTime.Equal r.StartTime ∧
      loaded.StartTime.offset zoneC = r.StartTime.offset zoneW := by
  obtain ⟨bytes, hb⟩ := MarshalIndent_ok zoneW r hyear hzone.2
  obtain ⟨loaded, h1, h2, h3, h4, h5⟩ := load_of_saved zoneW zoneC r bytes hpid hnsec hzone.1 hb
  exact ⟨bytes, loaded, hb, h1, h2, ⟨h3, h4⟩, h5⟩

theorem C1_load_save_roundtrip_witness :
    ∃ bytes loaded, MarshalIndent (fun _ => 3600) sampleInfo = .ok bytes ∧
      Unmarshal (fun _ => 0) bytes = .ok loaded ∧
      loaded.PID = sampleInfo.PID ∧ loaded.StartTime.Equal sampleInfo.StartTime ∧
      loaded.StartTime.offset (fun _ => 0) = sampleInfo.StartTime.offset (fun _ => 3600) :=
  C1_load_save_roundtrip (fun _ => 3600) (fun _ => 0) sampleInfo
    (by decide) (by decide) (by decide) (by decide)

end CronJob

namespace CronJob

theorem storeMember_good (zone : Zone) (d : Decoded) (key : List Char) (item : JItem)
    (h : badMember zone (key, item) = false) :
    ∃ d2, storeMember zone d key item = .ok d2 ∧ d2.saved = d.saved := by
  unfold badMember at h
  unfold storeMember
  by_cases h1 : foldName (unquote key) = foldName "pid".toList
  · rw [if_pos h1] at h ⊢
    cases item with
    | null => exact ⟨d, rfl, rfl⟩
    | num lit =>
      simp only [] at h ⊢
      cases hp : parseIntLit lit with
      | none => simp [hp] at h
      | some n => exact ⟨_, rfl, rfl⟩
    | bool b => simp at h
    | str raw => simp at h
    | arr => simp at h
    | obj => simp at h
  · rw [if_neg h1] at h ⊢
    by_cases h2 : foldName (unquote key) = foldName "start_time".toList
    · rw [if_pos h2] at h ⊢
      cases item with
      | null => exact ⟨d, rfl, rfl⟩
      | str raw =>
        simp only [] at h ⊢
        cases hp : parseStrictRFC3339 zone raw with
        | none => simp [hp] at h
        | some t => exact ⟨_, rfl, rfl⟩
      | bool b => simp at h
      | num lit => simp at h
      | arr => simp at h
      | obj => simp at h
    · rw [if_neg h2]
      exact ⟨d, rfl, rfl⟩

theorem saveError_ne_none (saved : Option UnmarshalError) (e : UnmarshalError) :
    saveError saved e ≠ none := by
  cases saved <;> simp [saveError]

theorem storeMember_bad (zone : Zone) (d : Decoded) (key : List Char) (item : JItem)
    (h : badMember zone (key, item) = true) :
    (∃ e, storeMember zone d key item = .error e) ∨
      ∃ d2, storeMember zone d key item = .ok d2 ∧ d2.saved ≠ none := by
  unfold badMember at h
  unfold storeMember
  by_cases h1 : foldName (unquote key) = foldName "pid".toList
  · rw [if_pos h1] at h ⊢
    right
    cases item with
    | null => simp at h
    | num lit =>
      simp only [] at h ⊢
      cases hp : parseIntLit lit with
      | none => exact ⟨_, rfl, saveError_ne_none _ _⟩
      | some n => simp [hp] at h
    | bool b => exact ⟨_, rfl, saveError_ne_none _ _⟩
    | str raw => exact ⟨_, rfl, saveError_ne_none _ _⟩
    | arr => exact ⟨_, rfl, saveError_ne_none _ _⟩
    | obj => exact ⟨_, rfl, saveError_ne_none _ _⟩
  · rw [if_neg h1] at h ⊢
    by_cases h2 : foldName (unquote key) = foldName "start_time".toList
    · rw [if_pos h2] at h ⊢
      left
      cases item with
      | null => simp at h
      | str raw =>
        simp only [] at h ⊢
        cases hp : parseStrictRFC3339 zone raw with
        | none => exact ⟨_, rfl⟩
        | some t => simp [hp] at h
      | bool b => exact ⟨_, rfl⟩
      | num lit => exact ⟨_, rfl⟩
      | arr => exact ⟨_, rfl⟩
      | obj => exact ⟨_, rfl⟩
    · rw [if_neg h2] at h
      simp at h

theorem storeMember_keeps (zone : Zone) (d d2 : Decoded) (key : List Char) (item : JItem)
    (h : storeMember zone d key item = .ok d2) (hs : d.saved ≠ none) : d2.saved ≠ none := by
  by_cases hb : badMember zone (key, item) = true
  · rcases storeMember_bad zone d key item hb with ⟨e, he⟩ | ⟨d3, h3, hs3⟩
    · rw [he] at h
      cases h
    · rw [h3] at h
      cases h
      exact hs3
  · obtain ⟨d3, h3, hs3⟩ := storeMember_good zone d key item (by simpa using hb)
    rw [h3] at h
    cases h
    rw [hs3]
    exact hs

/-- The members of an object are all stored, with no type mismatch left over, exactly
when none was saved before and no member is bad. -/
theorem storeMembers_ok_iff (zone : Zone) (members : List (List Char × JItem)) :
    ∀ d, (∃ d2, storeMembers zone d members = .ok d2 ∧ d2.saved = none) ↔
      (d.saved = none ∧ members.any (badMember zone) = false) := by
  induction members with
  | nil =>
    intro d
    simp [storeMembers]
  | cons m members ih =>
    intro d
    obtain ⟨key, item⟩ := m
    simp only [storeMembers, List.any_cons, Bool.or_eq_false_iff]
    by_cases hb : badMember zone (key, item) = true
    · simp only [hb, Bool.true_eq_false, false_and, and_false, iff_false, not_exists, not_and]
      intro d2 h
      rcases storeMember_bad zone d key item hb with ⟨e, he⟩ | ⟨d3, h3, hs3⟩
      · rw [he] at h
        cases h
      · rw [h3] at h
        simp only [] at h
        intro hn
        have := (ih d3).mp ⟨d2, h, hn⟩
        exact hs3 this.1
    · have hb2 : badMember zone (key, item) = false := by simpa using hb
      obtain ⟨d3, h3, hs3⟩ := storeMember_good zone d key item hb2
      rw [h3]
      simp only [hb2, true_and]
      rw [ih d3, hs3]

/-- Content that is a well-formed JSON object is rejected exactly when one of its
members is bad; members that are missing are not. -/
theorem Unmarshal_object (zone : Zone) (data : List Char) (members : List (List Char × JItem))
    (h : objectMembers data = some members) :
    (∃ e, Unmarshal zone data = .error e) ↔ members.any (badMember zone) = true := by
  unfold objectMembers at h
  unfold Unmarshal
  cases h1 : skipWS data with
  | nil => simp [h1] at h
  | cons c r =>
    rw [h1] at h
    simp only [] at h ⊢
    by_cases hc : c = '\x7b'
    · rw [if_pos hc] at h ⊢
      cases h2 : skipWS r with
      | nil => simp [h2] at h
      | cons c2 r2 =>
        rw [h2] at h
        simp only [] at h ⊢
        by_cases hc2 : c2 = '\x7d'
        · rw [if_pos hc2] at h ⊢
          by_cases h3 : skipWS r2 = []
          · rw [if_pos h3] at h ⊢
            cases h
            simp
          · rw [if_neg h3] at h
            cases h
        · rw [if_neg hc2] at h ⊢
          cases h4 : scanMembers data.length (maxNestingDepth - 1) (c2 :: r2) with
          | none => simp [h4] at h
          | some p =>
            obtain ⟨ms, rest⟩ := p
            rw [h4] at h
            simp only [] at h ⊢
            by_cases h5 : skipWS rest = []
            · rw [if_pos h5] at h ⊢
              cases h
              have key := storeMembers_ok_iff zone members { info := PIDInfo.zero, saved := none }
              simp only [true_and] at key
              cases hs : storeMembers zone { info := PIDInfo.zero, saved := none } members with
              | error e =>
                refine ⟨fun _ => ?_, fun _ => ⟨e, rfl⟩⟩
                by_contra hb
                obtain ⟨d2, hd2, -⟩ := key.mpr (Bool.eq_false_iff.mpr hb)
                rw [hs] at hd2
                cases hd2
              | ok d =>
                simp only []
                cases hsv : d.saved with
                | none =>
                  have := key.mp ⟨d, hs, hsv⟩
                  simp [this]
                | some e =>
                  refine ⟨fun _ => ?_, fun _ => ⟨e, rfl⟩⟩
                  by_contra hb
                  obtain ⟨d2, hd2, hn⟩ := key.mpr (Bool.eq_false_iff.mpr hb)
                  rw [hs] at hd2
                  cases hd2
                  rw [hsv] at hn
                  cases hn
            · rw [if_neg h5] at h
              cases h
    · rw [if_neg hc] at h
      cases h

end CronJob

namespace CronJob

namespace Kill

/-- C5: when the record file does not exist, the controller checks for it, reports that
no background service is running and returns: it signals no process, asks nothing and
creates, changes or deletes no file. -/
theorem C5_no_record_file (env : Env) (stdin : List Char) (home : String)
    (hhome : env.homeDir = .ok home) (habsent : env.statPid = .notExist) :
    main env stdin =
      [.stat (pidFilePath home),
       .println "No background service seems to be running (PID file not found)"] := by
  simp [main, hhome, habsent]

theorem C5_no_record_file_witness :
    main envAbsent "y\n".toList =
      [.stat (pidFilePath "/home/u"),
       .println "No background service seems to be running (PID file not found)"] :=
  C5_no_record_file envAbsent "y\n".toList "/home/u" rfl rfl

/-- C10: when the word read at the first prompt is neither `y` nor `Y` (an empty line
and an exhausted input leave the empty initial answer), the controller prints the
cancellation and returns; after the prompt it performs no other effect: no process
lookup, no signal, no command, no further prompt, no file operation. -/
theorem C10_decline_first (env : Env) (stdin : List Char) (home : String) (data : List Char)
    (pidInfo : PIDInfo)
    (hhome : env.homeDir = .ok home) (hstat : env.statPid ≠ .notExist)
    (hread : env.readFile = .ok data) (hload : Unmarshal env.zone data = .ok pidInfo)
    (hno : (Scanln [] stdin).1 ≠ ['y'] ∧ (Scanln [] stdin).1 ≠ ['Y']) :
    main env stdin =
      [.stat (pidFilePath home), .readFile (pidFilePath home),
       .printf "Found process with PID: %d\n" [.int pidInfo.PID],
       .printf "Process started at: %s\n" [.str (formatDateTime env.zone pidInfo.StartTime)],
       .printf "Process running for: %s\n"
         [.duration (roundSecond (env.now.Sub pidInfo.StartTime))],
       .print "Do you want to terminate this process? (y/n): ", .scanln,
       .println "Operation cancelled"] := by
  simp [main, hhome, hstat, hread, hload, confirm, affirmative, hno.1, hno.2]

theorem C10_decline_first_witness :
    main envGone "\n".toList =
      [.stat (pidFilePath "/home/u"), .readFile (pidFilePath "/home/u"),
       .printf "Found process with PID: %d\n" [.int sampleLoaded.PID],
       .printf "Process started at: %s\n"
         [.str (formatDateTime envGone.zone sampleLoaded.StartTime)],
       .printf "Process running for: %s\n"
         [.duration (roundSecond (envGone.now.Sub sampleLoaded.StartTime))],
       .print "Do you want to terminate this process? (y/n): ", .scanln,
       .println "Operation cancelled"] :=
  C10_decline_first envGone "\n".toList "/home/u" sampleRecord sampleLoaded rfl (by decide) rfl
    (by decide) (by decide)

/-- `Scanln` stores nothing when the line is empty or the input is at its end: the
variable keeps the value it had. -/
theorem Scanln_nothing_read (response rest : List Char) :
    Scanln response ('\n' :: rest) = (response, rest) ∧ Scanln response [] = (response, []) := by
  simp [Scanln, skipSpace]

theorem sleep_mem_staleCheck (env : Env) (p : String) (r s : List Char) :
    Effect.sleep 1 ∈ staleCheck env p r s := by
  simp [staleCheck]

theorem kill_not_mem_staleCheck (env : Env) (p : String) (r s : List Char) (pid : Int) :
    Effect.kill pid ∉ staleCheck env p r s := by
  unfold staleCheck
  split_ifs <;> simp
  all_goals (split <;> simp)

theorem exec_not_mem_staleCheck (env : Env) (p : String) (r s : List Char) (c : String)
    (a : List (List Char)) :
    Effect.exec c a ∉ staleCheck env p r s := by
  unfold staleCheck
  split_ifs <;> simp
  all_goals (split <;> simp)

/-- Every run of the controller is one of: a run that never reaches the forceful
kill, or a run through the ladder. -/
theorem main_ladder_or_not (env : Env) (stdin : List Char) :
    ((∀ pid, Effect.kill pid ∉ main env stdin) ∧ (∀ c a, Effect.exec c a ∉ main env stdin)) ∨
    ∃ home data pidInfo e,
      env.homeDir = .ok home ∧ env.readFile = .ok data ∧
      Unmarshal env.zone data = .ok pidInfo ∧ env.termErr = some e ∧
      affirmative (Scanln [] stdin).1 = true ∧
      affirmative (Scanln (Scanln [] stdin).1 (Scanln [] stdin).2).1 = true ∧
      main env stdin = ladderHead env home pidInfo e ++ [.kill pidInfo.PID] ++
        (match env.killErr with
         | some e2 =>
           [.printf "Error forcefully terminating process: %v\n" [.err e2],
             .println "Attempting to terminate with system kill command...",
             .stat "/bin/kill",
             .exec (if env.statBinKill = .notExist then "kill" else "/bin/kill")
               ["-9".toList, itoa pidInfo.PID]] ++
           (match env.execErr with
            | some e3 =>
              [.printf "Failed to force kill: %v\n" [.err e3],
                .println "You may need to manually kill the process"]
            | none =>
              [.printf "Process %d has been forcefully terminated\n" [.int pidInfo.PID]] ++
              staleCheck env (pidFilePath home)
                (Scanln (Scanln [] stdin).1 (Scanln [] stdin).2).1
                (Scanln (Scanln [] stdin).1 (Scanln [] stdin).2).2)
         | none =>
           [.printf "Process %d has been forcefully terminated\n" [.int pidInfo.PID]] ++
           staleCheck env (pidFilePath home)
             (Scanln (Scanln [] stdin).1 (Scanln [] stdin).2).1
             (Scanln (Scanln [] stdin).1 (Scanln [] stdin).2).2) := by
  unfold main
  rcases hh : env.homeDir with e | home
  · left; simp
  simp only []
  by_cases hs : env.statPid = .notExist
  · left; simp [hs]
  rcases hr : env.readFile with e | data
  · left; simp [hs]
  simp only []
  rcases hu : Unmarshal env.zone data with e | pidInfo
  · left; simp [hs]
  simp only [confirm]
  by_cases a1 : affirmative (Scanln [] stdin).1 = true
  swap
  · left; simp [hs, a1]
  simp only [terminate]
  rcases hf : env.findErr with _ | e
  swap
  · left; simp [hs, a1]
  rcases ht : env.termErr with _ | e
  · left; simp [hs, a1, kill_not_mem_staleCheck, exec_not_mem_staleCheck]
  simp only [forceful]
  by_cases a2 : affirmative (Scanln (Scanln [] stdin).1 (Scanln [] stdin).2).1 = true
  swap
  · left; simp [hs, a1, a2]
  right
  refine ⟨home, data, pidInfo, e, rfl, rfl, hu, rfl, a1, a2, ?_⟩
  rcases env.killErr with _ | e2 <;> rcases env.execErr with _ | e3 <;>
    simp [hs, a1, a2, ladderHead]

/-- C4 (the code departs from the claim): the operator answers `y` at the first prompt
and the input ends there; the recorded process no longer exists, so the graceful signal
fails.  Nothing can be read at the forceful prompt, `response` still holds the first
`y`, and the controller climbs the whole ladder unasked: the forceful kill, then, as
that fails, `/bin/kill -9 4242`, then, as that fails too, the advice to kill the
process by hand, without reaching the check for a stale record. -/
theorem C4_ladder_climbed_unconfirmed :
    Scanln [] "y\n".toList = ("y".toList, []) ∧
    main envVanished "y\n".toList =
      [.stat "/home/u/.config/cron/pid.json", .readFile "/home/u/.config/cron/pid.json",
       .printf "Found process with PID: %d\n" [.int 4242],
       .printf "Process started at: %s\n" [.str "2024-11-04 11:10:00".toList],
       .printf "Process running for: %s\n" [.duration 3601000000000],
       .print "Do you want to terminate this process? (y/n): ", .scanln,
       .findProcess 4242,
       .printf "Sending termination signal to process %d...\n" [.int 4242],
       .signal 4242 SIGTERM,
       .printf "Error sending termination signal: %v\n" [.err "os: process already finished"],
       .print "Terminate forcefully? (y/n): ", .scanln,
       .kill 4242,
       .printf "Error forcefully terminating process: %v\n"
         [.err "os: process already finished"],
       .println "Attempting to terminate with system kill command...",
       .stat "/bin/kill",
       .exec "/bin/kill" ["-9".toList, "4242".toList],
       .printf "Failed to force kill: %v\n" [.err "exit status 1"],
       .println "You may need to manually kill the process"] := by
  decide

/-- An answer that is typed is honoured: with `n` at the forceful prompt nothing is
killed and the run ends. -/
theorem explicit_no_is_honoured :
    main envVanished "y\nn\n".toList =
      ladderHead envVanished "/home/u" sampleLoaded "os: process already finished" ++
        [.println "Process was not terminated"] := by
  decide

/-- C2 (the code departs from the claim): the operator confirms at the first prompt, the
graceful signal fails, and the operator answers the forceful prompt with an empty line;
`response` still holds the first `y`, so the process is killed forcefully. -/
theorem C2_empty_line_forces_kill :
    main envGone "y\n\n".toList =
      [.stat "/home/u/.config/cron/pid.json", .readFile "/home/u/.config/cron/pid.json",
       .printf "Found process with PID: %d\n" [.int 4242],
       .printf "Process started at: %s\n" [.str "2024-11-04 11:10:00".toList],
       .printf "Process running for: %s\n" [.duration 3601000000000],
       .print "Do you want to terminate this process? (y/n): ", .scanln,
       .findProcess 4242,
       .printf "Sending termination signal to process %d...\n" [.int 4242],
       .signal 4242 SIGTERM,
       .printf "Error sending termination signal: %v\n" [.err "os: process already finished"],
       .print "Terminate forcefully? (y/n): ", .scanln,
       .kill 4242,
       .printf "Process %d has been forcefully terminated\n" [.int 4242],
       .sleep 1, .stat "/home/u/.config/cron/pid.json"] := by
  decide

/-- C3 (the code departs from the claim): the graceful signal is sent, the record file
is still there, and nothing can be read at the prompt to remove it; `response` still
holds the `y` of the first prompt, so the record file is removed. -/
theorem C3_no_answer_removes_file :
    main envStale "y\n".toList =
      [.stat "/home/u/.config/cron/pid.json", .readFile "/home/u/.config/cron/pid.json",
       .printf "Found process with PID: %d\n" [.int 4242],
       .printf "Process started at: %s\n" [.str "2024-11-04 11:10:00".toList],
       .printf "Process running for: %s\n" [.duration 3601000000000],
       .print "Do you want to terminate this process? (y/n): ", .scanln,
       .findProcess 4242,
       .printf "Sending termination signal to process %d...\n" [.int 4242],
       .signal 4242 SIGTERM,
       .printf "Termination signal sent to process %d\n" [.int 4242],
       .sleep 2, .signal 4242 0,
       .println "Process has been terminated successfully",
       .sleep 1, .stat "/home/u/.config/cron/pid.json",
       .println
         "Note: PID file still exists. This might indicate the process didn't shut down properly.",
       .print "Remove the PID file? (y/n): ", .scanln,
       .remove "/home/u/.config/cron/pid.json",
       .println "PID file removed successfully"] := by
  decide

/-- C6 as stated fails: a record file holding `{}`, which gives neither a process id nor
a start time and is not what the worker writes for any record, is loaded as the zero
record; the controller displays process 0 and asks whether to terminate it. -/
theorem C6_empty_object_is_loaded :
    (∀ zone p, MarshalIndent zone p ≠ .ok "\x7b\x7d".toList) ∧
    Unmarshal envEmptyObject.zone "\x7b\x7d".toList = .ok PIDInfo.zero ∧
    main envEmptyObject "n\n".toList =
      [.stat "/home/u/.config/cron/pid.json", .readFile "/home/u/.config/cron/pid.json",
       .printf "Found process with PID: %d\n" [.int 0],
       .printf "Process started at: %s\n" [.str "0001-01-01 00:00:00".toList],
       .printf "Process running for: %s\n" [.duration 9223372036854775807],
       .print "Do you want to terminate this process? (y/n): ", .scanln,
       .println "Operation cancelled"] := by
  refine ⟨?_, by decide, by decide⟩
  intro zone p h
  have h2 := congrArg (fun l => l.get? 1) (MarshalIndent_form zone p _ h).2.2
  have e : "\x7b\x7d".toList = ['\x7b', '\x7d'] := rfl
  rw [e] at h2
  simp at h2

theorem scanNumber_int_end (ds : List Char) (h : ds.all isDigit = true) :
    scanNumber .int (ds ++ ['\n']) = some (ds, ['\n']) := by
  induction ds with
  | nil =>
    have : isDigit '\n' = false := by decide
    simp [scanNumber, NumState.final, this]
  | cons c ds ih =>
    simp only [List.all_cons, Bool.and_eq_true] at h
    simp [scanNumber, h.1, ih h.2]

/-- The decimal text of an integer, alone on a line, is scanned as a number. -/
theorem scanValue_itoa_line (fuel depth : Nat) (n : Int) :
    ∃ c r, itoa n ++ ['\n'] = c :: r ∧ c ≠ '\x7b' ∧ isSpaceJSON c = false ∧
      scanValue (fuel + 1) depth (c :: r) = some (.num (itoa n), ['\n']) := by
  by_cases hneg : n < 0
  · obtain ⟨c, ds, e, hc, hc0, hds⟩ := natDigits_head n.natAbs (by omega)
    have hi : itoa n = '-' :: c :: ds := by
      simp only [itoa, appendInt, hneg, if_true, e, List.replicate, Nat.zero_sub,
        List.append_nil, List.cons_append, List.nil_append]
    refine ⟨'-', c :: ds ++ ['\n'], by rw [hi]; rfl, by decide, by decide, ?_⟩
    rw [hi]
    have : ('-' : Char) ≠ '\x7b' ∧ ('-' : Char) ≠ '[' ∧ ('-' : Char) ≠ '"' := by decide
    simp [scanValue, this, scanNumber, hc, hc0, scanNumber_int_end ds hds]
  · by_cases h0 : n = 0
    · subst h0
      have e : itoa 0 = ['0'] := by decide
      rw [e]
      refine ⟨'0', ['\n'], rfl, by decide, by decide, ?_⟩
      have : ('0' : Char) ≠ '\x7b' ∧ ('0' : Char) ≠ '[' ∧ ('0' : Char) ≠ '"' ∧
          ('0' : Char) ≠ '-' := by decide
      simp [scanValue, this, scanNumber, NumState.final]
    · obtain ⟨c, ds, e, hc, hc0, hds⟩ := natDigits_head n.natAbs (by omega)
      obtain ⟨p1, p2, p3, p4, p5, p6, p7, p8, p9, -⟩ := isDigit_props c hc
      have hi : itoa n = c :: ds := by
        simp only [itoa, appendInt, hneg, if_false, e, List.replicate, Nat.zero_sub,
          List.cons_append, List.nil_append]
      refine ⟨c, ds ++ ['\n'], by rw [hi]; rfl, p1, p9, ?_⟩
      rw [hi]
      simp [scanValue, p1, p2, p3, p4, hc, hc0, scanNumber_int_end ds hds]

/-- A file that holds only a decimal number and a newline is a JSON number, which does
not fit a `PIDInfo`. -/
theorem Unmarshal_bare_number (zone : Zone) (n : Int) :
    Unmarshal zone (itoa n ++ ['\n']) = .error .wrongType := by
  obtain ⟨c, r, hcr, hc, hsp, hscan⟩ := scanValue_itoa_line (itoa n).length maxNestingDepth n
  have hlen : (itoa n ++ ['\n']).length = (itoa n).length + 1 := by simp
  unfold Unmarshal
  rw [hlen, hcr]
  have hnl : isSpaceJSON '\n' = true := by decide
  simp [skipWS, hsp, hc, hscan, hnl]

/-- Spellings of the start time that only the lenient `Parse` reads are loaded: an hour
of one digit, a comma before the fraction, a zone of 24 hours. -/
theorem Unmarshal_lenient_times :
    Unmarshal (fun _ => 0)
        "\x7b\"pid\": 7, \"start_time\": \"2024-11-04T1:10:00Z\"\x7d".toList =
      .ok { PID := 7, StartTime := ⟨1730682600, 0, none, .utc⟩ } ∧
    Unmarshal (fun _ => 0)
        "\x7b\"pid\": 7, \"start_time\": \"2024-11-04T11:10:00,5Z\"\x7d".toList =
      .ok { PID := 7, StartTime := ⟨1730718600, 500000000, none, .utc⟩ } ∧
    Unmarshal (fun _ => 0)
        "\x7b\"pid\": 7, \"start_time\": \"2024-11-04T11:10:00+24:00\"\x7d".toList =
      .ok { PID := 7, StartTime := ⟨1730632200, 0, none, .fixed 86400⟩ } ∧
    Unmarshal (fun _ => 0)
        "\x7b\"pid\": 7, \"start_time\": \"2024-11-04 11:10:00Z\"\x7d".toList =
      .error .badTime := by
  decide

/-- Content that is blank, or whose first character after the blanks cannot begin a
JSON value, is not JSON. -/
theorem Unmarshal_no_value (zone : Zone) (data : List Char)
    (h : skipWS data = [] ∨ ∃ c r, skipWS data = c :: r ∧ startsValue c = false) :
    Unmarshal zone data = .error .notJSON := by
  unfold Unmarshal
  rcases h with h | ⟨c, r, h, hc⟩
  · rw [h]
  · rw [h]
    simp only [startsValue, Bool.or_eq_false_iff, decide_eq_false_iff_not] at hc
    obtain ⟨⟨⟨⟨⟨⟨⟨h1, h2⟩, h3⟩, h4⟩, h5⟩, h6⟩, h7⟩, h8⟩ := hc
    have hlen : ∃ k, data.length = k + 1 := by
      cases data with
      | nil => simp [skipWS] at h
      | cons d ds => exact ⟨ds.length, rfl⟩
    obtain ⟨k, hk⟩ := hlen
    have h50 : c ≠ '0' := by
      intro e
      subst e
      simp [isDigit] at h5
    simp [h1, hk, scanValue, h2, h3, h4, h5, h6, h7, h8, h50]

/-- What `Unmarshal` makes of record files that are damaged in one place: the process
id in quotes, with a fraction, or too large for an int; a start time that is a number
or is no time; a record cut short. -/
theorem Unmarshal_damaged_records :
    Unmarshal (fun _ => 0)
        "\x7b\"pid\": \"4242\", \"start_time\": \"2024-11-04T11:10:00Z\"\x7d".toList =
      .error .wrongType ∧
    Unmarshal (fun _ => 0)
        "\x7b\"pid\": 4242.0, \"start_time\": \"2024-11-04T11:10:00Z\"\x7d".toList =
      .error .wrongType ∧
    Unmarshal (fun _ => 0)
        "\x7b\"pid\": 9223372036854775808, \"start_time\": null\x7d".toList =
      .error .wrongType ∧
    Unmarshal (fun _ => 0) "\x7b\"pid\": 4242, \"start_time\": 1730715000\x7d".toList =
      .error .badTime ∧
    Unmarshal (fun _ => 0) "\x7b\"pid\": 4242, \"start_time\": \"yesterday\"\x7d".toList =
      .error .badTime ∧
    Unmarshal (fun _ => 0) "\x7b\n  \"pid\": 4242,\n  \"start_time\": \"2024-11".toList =
      .error .notJSON := by
  decide

/-- C6, amended: the record file exists and has been read.  Whenever `Unmarshal` returns
an error for its content, and only then, the run of the controller is the check for
the file, the read and the line `Error parsing PID file:` with that error: the file is
not taken for absent, no process is displayed, nothing is asked or read from the
operator, no process is signalled and the file is not touched.  `Unmarshal` returns
such an error whenever the content is blank, whenever its first character after the
blanks cannot begin a JSON value, and whenever it is only a decimal number on a line
(the plain process id).  When the content is a well-formed JSON object, the error
arises exactly when the object has a bad member: a `pid` that is neither `null` nor an
integer fitting an int, or a `start_time` that is neither `null` nor a string the time
parser reads; an object that lacks either member is not an error. -/
theorem C6_parse_error (env : Env) (stdin : List Char) (home : String) (data : List Char)
    (hhome : env.homeDir = .ok home) (hstat : env.statPid ≠ .notExist)
    (hread : env.readFile = .ok data) :
    (∀ e, Unmarshal env.zone data = .error e ↔ main env stdin = parseErrorRun home e) ∧
    (skipWS data = [] → main env stdin = parseErrorRun home .notJSON) ∧
    (∀ c r, skipWS data = c :: r → startsValue c = false →
      main env stdin = parseErrorRun home .notJSON) ∧
    (∀ n : Int, data = itoa n ++ ['\n'] → main env stdin = parseErrorRun home .wrongType) ∧
    (∀ members, objectMembers data = some members →
      ((∃ e, main env stdin = parseErrorRun home e) ↔
        members.any (badMember env.zone) = true)) := by
  have key : ∀ e, Unmarshal env.zone data = .error e → main env stdin = parseErrorRun home e := by
    intro e he
    simp [main, hhome, hstat, hread, he, parseErrorRun]
  have back : ∀ e, main env stdin = parseErrorRun home e → Unmarshal env.zone data = .error e := by
    intro e hm
    rcases hu : Unmarshal env.zone data with e2 | p
    · have := key e2 hu
      rw [hm] at this
      simp only [parseErrorRun, List.cons.injEq, Effect.printf.injEq, Arg.unmarshalErr.injEq,
        and_true, true_and] at this
      rw [this]
    · simp [main, hhome, hstat, hread, hu, parseErrorRun, confirm] at hm
  refine ⟨fun e => ⟨key e, back e⟩, ?_, ?_, ?_, ?_⟩
  · intro h
    exact key _ (Unmarshal_no_value env.zone data (Or.inl h))
  · intro c r h hc
    exact key _ (Unmarshal_no_value env.zone data (Or.inr ⟨c, r, h, hc⟩))
  · intro n h
    rw [h] at key
    exact key _ (Unmarshal_bare_number env.zone n)
  · intro members hm
    rw [← Unmarshal_object env.zone data members hm]
    exact ⟨fun ⟨e, he⟩ => ⟨e, back e he⟩, fun ⟨e, he⟩ => ⟨e, key e he⟩⟩

theorem C6_parse_error_witness :
    main envGarbage "y\n".toList =
      [.stat "/home/u/.config/cron/pid.json", .readFile "/home/u/.config/cron/pid.json",
       .printf "Error parsing PID file: %v\n" [.unmarshalErr .notJSON]] :=
  (C6_parse_error envGarbage "y\n".toList "/home/u" "pid=4242".toList rfl (by decide) rfl).2.2.1
    'p' "id=4242".toList rfl rfl

end Kill

end CronJob

namespace CronJob

namespace Daemon

theorem logMessage_pidFile (env : Env) (w : World) (m : List Char) :
    (logMessage env w m).pidFile = w.pidFile := by
  unfold logMessage
  repeat' split
  all_goals rfl

theorem logMessage_trace (env : Env) (w : World) (m : List Char) :
    (logMessage env w m).trace = w.trace ++ [.log m] := by
  unfold logMessage
  repeat' split
  all_goals rfl

theorem logMessage_tick (env : Env) (w : World) (m : List Char) :
    (logMessage env w m).tick = w.tick + 1 := by
  unfold logMessage
  repeat' split
  all_goals rfl

theorem runSync_pidFile (env : Env) (w : World) : (runSync env w).pidFile = w.pidFile := by
  unfold runSync
  rcases env.homeDir with e | home
  · simp only [logMessage_pidFile]
  · simp only []
    rcases env.sync (logMessage env w "Starting rclone sync from ~/db to gdrive:Data".toList).tick
      with ⟨_ | e, output⟩ <;> simp only [logMessage_pidFile]

theorem runSync_trace (env : Env) (w : World) (home : String) (hhome : env.homeDir = .ok home) :
    (runSync env w).trace = w.trace ++
      [.log "Starting rclone sync from ~/db to gdrive:Data".toList,
       .exec "rclone" ["sync", filepathJoin [home, "db"], "gdrive:Data"]] ++
      (match env.sync (w.tick + 1) with
       | (some e, output) => [.log (withError "Error executing rclone command: " e), .log output]
       | (none, _) => [.log "Sync completed successfully".toList]) := by
  unfold runSync
  simp only [hhome, logMessage_tick]
  rcases hs : env.sync (w.tick + 1) with ⟨_ | e, output⟩ <;>
    simp [logMessage_trace]

theorem runSync_tick (env : Env) (w : World) (home : String) (hhome : env.homeDir = .ok home) :
    (runSync env w).tick = w.tick + 2 + (if (env.sync (w.tick + 1)).1 = none then 1 else 2) := by
  unfold runSync
  simp only [hhome, logMessage_tick]
  rcases hs : env.sync (w.tick + 1) with ⟨_ | e, output⟩ <;>
    simp [logMessage_tick]

theorem schedule_pidFile (env : Env) (w : World) : (schedule env w).pidFile = w.pidFile := by
  simp [schedule, logMessage_pidFile]

theorem schedule_trace (env : Env) (w : World) :
    (schedule env w).trace = w.trace ++
      [.log ("Next sync scheduled for: ".toList ++ formatClock env.zone (nextRun env w)),
       .select 3600] := by
  simp [schedule, logMessage_trace]

theorem nextRun_sec (env : Env) (w : World) (h : (env.now w.tick).nsec < 1000000000) :
    (nextRun env w).sec = (env.now w.tick).sec + 3600 ∧
    (nextRun env w).nsec = (env.now w.tick).nsec := by
  simp only [nextRun, Time.Add, sixtyMinutes]
  constructor <;> omega

theorem removePIDFile_trace (env : Env) (w : World) :
    (removePIDFile env w).trace = w.trace ++
      (match env.homeDir with
       | .error e => [.log (withError "Error getting home directory: " e)]
       | .ok home =>
         [.remove (pidFilePath home),
          .log (match env.removeErr, w.pidFile with
            | some e, _ => withError "Error removing PID file: " e
            | none, none =>
              withError "Error removing PID file: " (removeNotExist (pidFilePath home))
            | none, some _ => withError "PID file removed: " (pidFilePath home))]) := by
  unfold removePIDFile
  rcases env.homeDir with e | home
  · simp [logMessage_trace]
  · rcases env.removeErr with _ | e <;> rcases w.pidFile with _ | data <;>
      simp [logMessage_trace]

theorem removePIDFile_pidFile (env : Env) (w : World) :
    (removePIDFile env w).pidFile =
      (match env.homeDir with
       | .error _ => w.pidFile
       | .ok _ => if env.removeErr = none then none else w.pidFile) := by
  unfold removePIDFile
  rcases env.homeDir with e | home
  · simp [logMessage_pidFile]
  · rcases hr : env.removeErr with _ | e <;> rcases hp : w.pidFile with _ | data <;>
      simp [logMessage_pidFile, hp]

theorem syncCount_append (a b : List Event) : syncCount (a ++ b) = syncCount a + syncCount b := by
  simp [syncCount]

theorem syncCount_iteration (env : Env) (w : World) (home : String)
    (hhome : env.homeDir = .ok home) :
    syncCount (schedule env (runSync env w)).trace = syncCount w.trace + 1 := by
  rw [schedule_trace, runSync_trace env w home hhome]
  rcases env.sync (w.tick + 1) with ⟨_ | e, output⟩ <;>
    simp [syncCount, List.countP_cons]

theorem syncLoop_done (env : Env) (n : Nat) (rest : List Wake) (w : World) :
    syncLoop env (List.replicate n .timer ++ .done :: rest) w =
      (shutdown env (signalHandler env (atWait env n w)), true) := by
  induction n generalizing w with
  | zero => rfl
  | succ n ih =>
    have e : syncLoop env (List.replicate (n + 1) .timer ++ .done :: rest) w =
        syncLoop env (List.replicate n .timer ++ .done :: rest) (schedule env (runSync env w)) := by
      simp [List.replicate, syncLoop]
    rw [e, ih]
    rfl

theorem atWait_pidFile (env : Env) (n : Nat) (w : World) :
    (atWait env n w).pidFile = w.pidFile := by
  induction n generalizing w with
  | zero => simp [atWait, schedule_pidFile, runSync_pidFile]
  | succ n ih => simp [atWait, ih, schedule_pidFile, runSync_pidFile]

theorem atWait_last (env : Env) (n : Nat) (w : World) :
    (atWait env n w).trace.getLast? = some (.select 3600) := by
  induction n generalizing w with
  | zero => simp [atWait, schedule_trace]
  | succ n ih => simp [atWait, ih]

theorem atWait_syncCount (env : Env) (n : Nat) (w : World) (home : String)
    (hhome : env.homeDir = .ok home) :
    syncCount (atWait env n w).trace = syncCount w.trace + (n + 1) := by
  induction n generalizing w with
  | zero => simp [atWait, syncCount_iteration env w home hhome]
  | succ n ih =>
    simp only [atWait]
    rw [ih, syncCount_iteration env w home hhome]
    omega

/-- C7, amended: the shutdown notification arrives during the wait that follows the
`n + 1`-th sync, for any `n`, any environment and any state of the files.  The loop
returns.  After that wait (`before` ends with it) exactly this happens: the handler logs
the signal, the loop logs `Background service shutting down` and calls
`removePIDFile`; no sync is run after the wait, and with a home directory `n + 1` syncs
were run in all.  `removePIDFile` calls `os.Remove` on the record file when the home
directory is known, and logs the outcome.  Afterwards the record file is gone when that
call was made and not refused; when the home directory is unknown or the removal is
refused, the failure is logged and the record file is as it was. -/
theorem C7_shutdown (env : Env) (w : World) (n : Nat) (rest : List Wake) :
    (syncLoop env (List.replicate n .timer ++ .done :: rest) w).2 = true ∧
    (∃ before : List Event, before.getLast? = some (.select 3600) ∧
      (∀ home, env.homeDir = .ok home → syncCount before = syncCount w.trace + (n + 1)) ∧
      (syncLoop env (List.replicate n .timer ++ .done :: rest) w).1.trace =
        before ++
          [.log "Termination signal received".toList,
           .log "Background service shutting down".toList] ++
          (match env.homeDir with
           | .error e => [.log (withError "Error getting home directory: " e)]
           | .ok home =>
             [.remove (pidFilePath home),
              .log (match env.removeErr, w.pidFile with
                | some e, _ => withError "Error removing PID file: " e
                | none, none =>
                  withError "Error removing PID file: " (removeNotExist (pidFilePath home))
                | none, some _ => withError "PID file removed: " (pidFilePath home))])) ∧
    (syncLoop env (List.replicate n .timer ++ .done :: rest) w).1.pidFile =
      (match env.homeDir with
       | .error _ => w.pidFile
       | .ok _ => if env.removeErr = none then none else w.pidFile) := by
  rw [syncLoop_done]
  simp only [shutdown, signalHandler]
  have hp : (logMessage env (logMessage env (atWait env n w) "Termination signal received".toList)
      "Background service shutting down".toList).pidFile = w.pidFile := by
    simp [logMessage_pidFile, atWait_pidFile]
  refine ⟨trivial, ⟨(atWait env n w).trace, atWait_last env n w,
    fun home hhome => atWait_syncCount env n w home hhome, ?_⟩, ?_⟩
  · rw [removePIDFile_trace, hp]
    simp [logMessage_trace]
  · rw [removePIDFile_pidFile, hp]

theorem C7_shutdown_witness :
    (syncLoop envWorker [.timer, .done] runningWorld).2 = true ∧
    (syncLoop envWorker [.timer, .done] runningWorld).1.pidFile = none ∧
    syncCount (syncLoop envWorker [.timer, .done] runningWorld).1.trace = 2 := by
  obtain ⟨h1, ⟨before, -, h2, h3⟩, h4⟩ := C7_shutdown envWorker runningWorld 1 []
  refine ⟨h1, h4, ?_⟩
  have e : List.replicate 1 Wake.timer ++ [Wake.done] = [.timer, .done] := rfl
  rw [e] at h3
  rw [h3, syncCount_append, syncCount_append, h2 "/home/u" rfl]
  decide

/-- C7 as stated fails: the operating system refuses the removal; the loop has returned
and the record file is still there. -/
theorem C7_removal_refused :
    (syncLoop envDenied [.done] runningWorld).2 = true ∧
    (syncLoop envDenied [.done] runningWorld).1.pidFile = some sampleRecord := by
  decide

/-- C8: an iteration whose sync command fails logs the error and the captured output,
then logs the next run, which is the clock reading after the sync plus exactly 3600
seconds, and waits 3600 seconds; the loop has not returned, and when the timer ends the
wait the next iteration starts by running the sync again. -/
theorem C8_failed_sync_goes_on (env : Env) (w : World) (home e : String) (output : List Char)
    (rest : List Wake) (hhome : env.homeDir = .ok home)
    (hclock : (env.now (w.tick + 4)).nsec < 1000000000)
    (hfail : env.sync (w.tick + 1) = (some e, output)) :
    (schedule env (runSync env w)).trace = w.trace ++
      [.log "Starting rclone sync from ~/db to gdrive:Data".toList,
       .exec "rclone" ["sync", filepathJoin [home, "db"], "gdrive:Data"],
       .log (withError "Error executing rclone command: " e),
       .log output,
       .log ("Next sync scheduled for: ".toList ++
         formatClock env.zone ((env.now (w.tick + 4)).Add sixtyMinutes)),
       .select 3600] ∧
    ((env.now (w.tick + 4)).Add sixtyMinutes).sec = (env.now (w.tick + 4)).sec + 3600 ∧
    ((env.now (w.tick + 4)).Add sixtyMinutes).nsec = (env.now (w.tick + 4)).nsec ∧
    (syncLoop env [] w).2 = false ∧
    syncLoop env (.timer :: rest) w = syncLoop env rest (schedule env (runSync env w)) ∧
    (∃ after, (runSync env (schedule env (runSync env w))).trace =
      (schedule env (runSync env w)).trace ++
        [.log "Starting rclone sync from ~/db to gdrive:Data".toList,
         .exec "rclone" ["sync", filepathJoin [home, "db"], "gdrive:Data"]] ++ after) := by
  have ht : (runSync env w).tick = w.tick + 4 := by
    rw [runSync_tick env w home hhome, hfail]
    simp
  have hn := nextRun_sec env (runSync env w) (by rw [ht]; exact hclock)
  simp only [nextRun, ht] at hn
  refine ⟨?_, hn.1, hn.2, rfl, rfl, ⟨_, runSync_trace env _ home hhome⟩⟩
  rw [schedule_trace, runSync_trace env w home hhome, hfail]
  simp [nextRun, ht]

theorem C8_failed_sync_goes_on_witness :
    (schedule envWorker (runSync envWorker runningWorld)).trace = runningWorld.trace ++
      [.log "Starting rclone sync from ~/db to gdrive:Data".toList,
       .exec "rclone" ["sync", filepathJoin ["/home/u", "db"], "gdrive:Data"],
       .log (withError "Error executing rclone command: " "exit status 1"),
       .log "boom\nbang\n".toList,
       .log ("Next sync scheduled for: ".toList ++
         formatClock envWorker.zone ((envWorker.now (runningWorld.tick + 4)).Add sixtyMinutes)),
       .select 3600] ∧
    ((envWorker.now (runningWorld.tick + 4)).Add sixtyMinutes).sec =
      (envWorker.now (runningWorld.tick + 4)).sec + 3600 ∧
    ((envWorker.now (runningWorld.tick + 4)).Add sixtyMinutes).nsec =
      (envWorker.now (runningWorld.tick + 4)).nsec ∧
    (syncLoop envWorker [] runningWorld).2 = false ∧
    syncLoop envWorker (.timer :: [.done]) runningWorld =
      syncLoop envWorker [.done] (schedule envWorker (runSync envWorker runningWorld)) ∧
    (∃ after, (runSync envWorker (schedule envWorker (runSync envWorker runningWorld))).trace =
      (schedule envWorker (runSync envWorker runningWorld)).trace ++
        [.log "Starting rclone sync from ~/db to gdrive:Data".toList,
         .exec "rclone" ["sync", filepathJoin ["/home/u", "db"], "gdrive:Data"]] ++ after) :=
  C8_failed_sync_goes_on envWorker runningWorld "/home/u" "exit status 1" "boom\nbang\n".toList
    [.done] rfl (by decide) (by decide)

/-- C9, amended: a call of `logMessage` that succeeds leaves in the log file what was
there followed by `[`, the time stamp, `] `, the message and one newline, and leaves the
record file alone.  This is one line when the message holds no newline; the time stamp
has the form `YYYY-MM-DD HH:MM:SS` when the year is within `0..9999`. -/
theorem C9_log_appends (env : Env) (w : World) (message : List Char) (home : String)
    (hhome : env.homeDir = .ok home) (hmkdir : env.mkdirErr w.tick = none)
    (hopen : env.openErr w.tick = none) (hwrite : env.shortWrite w.tick = none) :
    (logMessage env w message).logFile =
      some (w.logFile.getD [] ++
        (['['] ++ formatDateTime env.zone (env.now w.tick) ++ [']', ' '] ++ message ++ ['\n'])) ∧
    (logMessage env w message).pidFile = w.pidFile ∧
    ('\n' ∉ message →
      '\n' ∉ ['['] ++ formatDateTime env.zone (env.now w.tick) ++ [']', ' '] ++ message) ∧
    (0 ≤ (absDate ((env.now w.tick).sec + (env.now w.tick).offset env.zone)).1 ∧
        (absDate ((env.now w.tick).sec + (env.now w.tick).offset env.zone)).1 ≤ 9999 →
      matchesLayout "dddd-dd-dd dd:dd:dd".toList (formatDateTime env.zone (env.now w.tick))
        = true) := by
  refine ⟨?_, logMessage_pidFile env w message, ?_, formatDateTime_shape env.zone _⟩
  · simp [logMessage, hhome, hmkdir, hopen, hwrite, logEntry]
  · intro h
    have := formatDateTime_no_newline env.zone (env.now w.tick)
    simp [h, this]

theorem C9_log_appends_witness :
    (logMessage envWorker freshWorld "Background service started".toList).logFile =
      some (freshWorld.logFile.getD [] ++
        (['['] ++ formatDateTime envWorker.zone (envWorker.now freshWorld.tick) ++ [']', ' '] ++
          "Background service started".toList ++ ['\n'])) ∧
    (logMessage envWorker freshWorld "Background service started".toList).pidFile =
      freshWorld.pidFile ∧
    ('\n' ∉ "Background service started".toList →
      '\n' ∉ ['['] ++ formatDateTime envWorker.zone (envWorker.now freshWorld.tick) ++ [']', ' '] ++
        "Background service started".toList) ∧
    (0 ≤ (absDate ((envWorker.now freshWorld.tick).sec +
          (envWorker.now freshWorld.tick).offset envWorker.zone)).1 ∧
        (absDate ((envWorker.now freshWorld.tick).sec +
          (envWorker.now freshWorld.tick).offset envWorker.zone)).1 ≤ 9999 →
      matchesLayout "dddd-dd-dd dd:dd:dd".toList
        (formatDateTime envWorker.zone (envWorker.now freshWorld.tick)) = true) :=
  C9_log_appends envWorker freshWorld "Background service started".toList "/home/u" rfl rfl rfl rfl

set_option maxRecDepth 100000 in
/-- C9 as stated fails: the captured output of a failed sync holds newlines, and the
entry `runSync` logs for it spans three lines. -/
theorem C9_sync_output_spans_lines :
    (runSync envWorker runningWorld).logFile =
      some ("[2024-11-04 11:10:05] Starting rclone sync from ~/db to gdrive:Data\n".toList ++
        "[2024-11-04 11:10:07] Error executing rclone command: exit status 1\n".toList ++
        "[2024-11-04 11:10:08] boom\nbang\n\n".toList) := by
  decide

end Daemon

end CronJob

namespace CronJob
namespace Daemon

/-- A call of `logMessage` that cannot have the home directory, the log directory
or the log file does nothing to the files: the log file and the record file are as
they were, and the caller goes on. -/
theorem logMessage_silent_failure (env : Env) (w : World) (message : List Char)
    (hfail : (∃ e, env.homeDir = .error e) ∨ (∃ e, env.mkdirErr w.tick = some e) ∨
      (∃ e, env.openErr w.tick = some e)) :
    (logMessage env w message).logFile = w.logFile ∧
    (logMessage env w message).pidFile = w.pidFile ∧
    (logMessage env w message).trace = w.trace ++ [.log message] := by
  refine ⟨?_, logMessage_pidFile env w message, logMessage_trace env w message⟩
  unfold logMessage
  rcases hfail with ⟨e, h⟩ | ⟨e, h⟩ | ⟨e, h⟩
  · simp only [h]
  · simp only [h]
    split <;> rfl
  · simp only [h]
    split
    · rfl
    · split <;> rfl

theorem logMessage_silent_failure_witness :
    (logMessage envNoHome freshWorld "Background service started".toList).logFile =
      freshWorld.logFile ∧
    (logMessage envNoHome freshWorld "Background service started".toList).pidFile =
      freshWorld.pidFile ∧
    (logMessage envNoHome freshWorld "Background service started".toList).trace =
      freshWorld.trace ++ [.log "Background service started".toList] :=
  logMessage_silent_failure envNoHome freshWorld "Background service started".toList
    (Or.inl ⟨"$HOME is not defined", rfl⟩)

/-- When the directory and the file can be written, `savePID` leaves in the record
file the bytes of `MarshalIndent` for this process and the clock reading, and the
controller's `Unmarshal`, in whatever zone, loads from them the same process id and
the same instant. -/
theorem savePID_then_load (env : Env) (w : World) (zoneC : Zone) (home : String)
    (hhome : env.homeDir = .ok home) (hmkdir : env.mkdirErr w.tick = none)
    (hwrite : env.writeFileErr w.tick = none)
    (hpid : -9223372036854775808 ≤ env.pid ∧ env.pid ≤ 9223372036854775807)
    (hnsec : (env.now w.tick).nsec < 1000000000)
    (hyear : 0 ≤ (absDate ((env.now w.tick).sec + (env.now w.tick).offset env.zone)).1 ∧
      (absDate ((env.now w.tick).sec + (env.now w.tick).offset env.zone)).1 ≤ 9999)
    (hzone : (env.now w.tick).offset env.zone % 60 = 0 ∧
      -86400 < (env.now w.tick).offset env.zone ∧ (env.now w.tick).offset env.zone < 86400) :
    ∃ bytes loaded, (savePID env w).pidFile = some bytes ∧
      MarshalIndent env.zone { PID := env.pid, StartTime := env.now w.tick } = .ok bytes ∧
      Unmarshal zoneC bytes = .ok loaded ∧ loaded.PID = env.pid ∧
      loaded.StartTime.Equal (env.now w.tick) := by
  obtain ⟨bytes, hb⟩ := MarshalIndent_ok env.zone
    { PID := env.pid, StartTime := env.now w.tick } hyear hzone.2
  obtain ⟨loaded, h1, h2, h3, h4, -⟩ := load_of_saved env.zone zoneC
    { PID := env.pid, StartTime := env.now w.tick } bytes hpid hnsec hzone.1 hb
  refine ⟨bytes, loaded, ?_, hb, h1, h2, ⟨h3, h4⟩⟩
  unfold savePID
  simp only [hhome, hmkdir, hb, hwrite, logMessage_pidFile]

theorem savePID_then_load_witness :
    ∃ bytes loaded, (savePID envWorker freshWorld).pidFile = some bytes ∧
      MarshalIndent envWorker.zone
        { PID := envWorker.pid, StartTime := envWorker.now freshWorld.tick } = .ok bytes ∧
      Unmarshal (fun _ => 0) bytes = .ok loaded ∧ loaded.PID = envWorker.pid ∧
      loaded.StartTime.Equal (envWorker.now freshWorld.tick) :=
  savePID_then_load envWorker freshWorld (fun _ => 0) "/home/u" rfl rfl rfl
    (by decide) (by decide) (by decide) (by decide)

/-- Started without `--daemon`, the binary only announces itself and starts itself
again with `--daemon`: it returns, has run no sync, and has left the record file and
the log file alone; when the start succeeds it prints the process id of the child. -/
theorem launcher_returns (env : Env) (wakes : List Wake) (w : World)
    (hflag : "--daemon" ∉ env.args) :
    (main env wakes w).2 = true ∧ (main env wakes w).1.pidFile = w.pidFile ∧
    (main env wakes w).1.logFile = w.logFile ∧
    syncCount (main env wakes w).1.trace = syncCount w.trace ∧
    (∀ exe, env.executable = .ok exe → env.startErr = none →
      (main env wakes w).1.trace = w.trace ++
        [.println "Starting scheduled sync, will run every 60 minutes",
         .start exe ["--daemon"],
         .printf "Process ID: %d\n" [.int env.childPid],
         .println "\n--- Program is continuing in background services ---"]) := by
  unfold main
  simp only [hflag, if_false]
  rcases he : env.executable with e | exe
  · simp [syncCount]
  · rcases hs : env.startErr with _ | e
    · simp [syncCount]
    · simp [syncCount]

theorem launcher_returns_witness :
    (main envLauncher [.done] freshWorld).2 = true ∧
    (main envLauncher [.done] freshWorld).1.pidFile = freshWorld.pidFile ∧
    (main envLauncher [.done] freshWorld).1.logFile = freshWorld.logFile ∧
    syncCount (main envLauncher [.done] freshWorld).1.trace = syncCount freshWorld.trace ∧
    (∀ exe, envLauncher.executable = .ok exe → envLauncher.startErr = none →
      (main envLauncher [.done] freshWorld).1.trace = freshWorld.trace ++
        [.println "Starting scheduled sync, will run every 60 minutes",
         .start exe ["--daemon"],
         .printf "Process ID: %d\n" [.int envLauncher.childPid],
         .println "\n--- Program is continuing in background services ---"]) :=
  launcher_returns envLauncher [.done] freshWorld (by decide)

theorem savePID_trace_counts (env : Env) (w : World) :
    syncCount (savePID env w).trace = syncCount w.trace ∧
    selectCount (savePID env w).trace = selectCount w.trace := by
  unfold savePID
  rcases env.homeDir with e | home
  · simp [logMessage_trace, syncCount, selectCount]
  · simp only []
    rcases env.mkdirErr w.tick with _ | e
    · simp only []
      rcases MarshalIndent env.zone { PID := env.pid, StartTime := env.now w.tick } with e | b
      · simp [logMessage_trace, syncCount, selectCount]
      · simp only []
        rcases env.writeFileErr w.tick with _ | e <;>
          simp [logMessage_trace, syncCount, selectCount]
    · simp [logMessage_trace, syncCount, selectCount]

/-- The first sync runs at once.  Started with `--daemon` and with a home directory,
the worker that has not yet been woken from its first wait has run the sync exactly
once and has entered exactly one wait, which is the last thing it did; it has not
returned. -/
theorem first_sync_immediately (env : Env) (w : World) (home : String)
    (hflag : "--daemon" ∈ env.args) (hhome : env.homeDir = .ok home) :
    (main env [] w).2 = false ∧
    syncCount (main env [] w).1.trace = syncCount w.trace + 1 ∧
    selectCount (main env [] w).1.trace = selectCount w.trace + 1 ∧
    (main env [] w).1.trace.getLast? = some (.select 3600) := by
  unfold main
  simp only [hflag, if_true, syncLoop]
  refine ⟨trivial, ?_, ?_, ?_⟩
  · rw [syncCount_iteration env _ home hhome]
    simp only [syncCount_append, logMessage_trace, (savePID_trace_counts env w).1]
    simp [syncCount]
  · rw [schedule_trace, runSync_trace env _ home hhome]
    simp only [logMessage_trace]
    rcases env.sync _ with ⟨_ | e, output⟩ <;>
      simp [selectCount, List.countP_append, List.countP_cons]
    all_goals
      have := (savePID_trace_counts env w).2
      simp only [selectCount] at this
      omega
  · rw [schedule_trace]
    simp

theorem first_sync_immediately_witness :
    (main envWorker [] freshWorld).2 = false ∧
    syncCount (main envWorker [] freshWorld).1.trace = syncCount freshWorld.trace + 1 ∧
    selectCount (main envWorker [] freshWorld).1.trace = selectCount freshWorld.trace + 1 ∧
    (main envWorker [] freshWorld).1.trace.getLast? = some (.select 3600) :=
  first_sync_immediately envWorker freshWorld "/home/u" (by decide) rfl

end Daemon
end CronJob
